import Mathlib

/-!
Shallow embedding of the PACTO-LAT stablecoin Soroban contract
(src/Contracts/stablecoin): types.rs constants and error enum, the
validation pipeline of utils.rs, and the entry points of contract.rs.
The external OpenZeppelin Stellar libraries (stellar_fungible Base ledger
primitives, stellar_access_control, stellar_pausable) and the Soroban
host (authentication, atomic commit/rollback of a failed invocation) are
not part of this repository's sources; those parts are modelled from the
specification, each marked `Modelled from the spec:` in its doc comment.

Addresses are modelled as strings (the source's only address validity
check is that the string form of the address is non-empty). Machine
integers (i128) are modelled as Int, with the one place the source does
overflow-checked arithmetic (checked_add in validate_supply_limits)
modelled by an explicit range check against 2^127.
-/

namespace Stablecoin

/-- Addresses are opaque identifiers; the contract only ever inspects the
string form of an address (empty or not) and compares addresses for
equality, so a string models them faithfully. -/
abbrev Addr := String

/-! Constants from types.rs. -/

def DECIMALS : Nat := 0
def NAME : String := "Costa Rica Colon"
def TOKEN_SYMBOL : String := "CRCX"

def MAX_SUPPLY : Int := 1000000000
def MAX_SINGLE_OPERATION : Int := 100000000
def MIN_AMOUNT : Int := 5

def ENABLE_SUPPLY_LIMITS : Bool := true
def ENABLE_OPERATION_LIMITS : Bool := true

/-- Error enum from types.rs (StablecoinError). -/
inductive StablecoinError where
  | InvalidAmount
  | InsufficientBalance
  | InsufficientAllowance
  | Paused
  | NotPaused
  | ZeroAddress
  | Unauthorized
  | AlreadyInitialized
  | ExceedsMaxSupply
  | AmountTooLarge
  | InvalidParameters
  | SelfTransfer
  | InvalidRole
  | ContractNotInitialized
  deriving DecidableEq, Repr

/-- Outcome domain of a contract invocation: a typed contract error
(StablecoinError, returned as Result::Err by the entry points), a Soroban
host authentication failure (require_auth trap), or an access-control
panic from ensure_role. The latter two are host/library failures distinct
from the contract's own error enum. -/
inductive CallError where
  | contractErr (e : StablecoinError)
  | authFail
  | roleFail
  deriving DecidableEq, Repr

/-! Persistent contract state. Balances are an association list so that
the total over all accounts is a finite sum; reads take the first entry
for a key and writes replace it in place (appending when absent), so
reachable states never hold duplicate keys. Allowances are keyed by the
(owner, spender) pair and hold (amount, expiration ledger). -/

/-- Read an account balance, zero when absent (Base::balance semantics). -/
def getBalance (bs : List (Addr × Int)) (a : Addr) : Int :=
  match bs with
  | [] => 0
  | (k, v) :: rest => if k = a then v else getBalance rest a

/-- Write an account balance, replacing the first entry for the key or
appending a fresh entry. -/
def setBalance (bs : List (Addr × Int)) (a : Addr) (v : Int) : List (Addr × Int) :=
  match bs with
  | [] => [(a, v)]
  | (k, w) :: rest => if k = a then (k, v) :: rest else (k, w) :: setBalance rest a v

/-- Sum of all recorded balances. -/
def sumBal (bs : List (Addr × Int)) : Int :=
  (bs.map Prod.snd).sum

/-- Read an allowance record: (amount, expiration ledger), (0, 0) when
absent. -/
def getAllow (al : List ((Addr × Addr) × Int × Nat)) (k : Addr × Addr) : Int × Nat :=
  match al with
  | [] => (0, 0)
  | (k2, v) :: rest => if k2 = k then v else getAllow rest k

/-- Overwrite an allowance record. -/
def setAllow (al : List ((Addr × Addr) × Int × Nat)) (k : Addr × Addr) (v : Int × Nat) :
    List ((Addr × Addr) × Int × Nat) :=
  match al with
  | [] => [(k, v)]
  | (k2, w) :: rest => if k2 = k then (k2, v) :: rest else (k2, w) :: setAllow rest k v

/-- Contract state: token metadata (set by initialize), the pause flag,
the ledger (balances, allowances, total supply), the access-control
records (admin and the single holder of each role, set at initialize),
and the current ledger sequence number used for allowance expiration. -/
structure CState where
  name : String
  symbol : String
  decimals : Nat
  paused : Bool
  balances : List (Addr × Int)
  allowances : List ((Addr × Addr) × Int × Nat)
  total_supply : Int
  admin : Option Addr
  minter : Option Addr
  pauser : Option Addr
  upgrader : Option Addr
  ledger_seq : Nat
  deriving DecidableEq, Repr

/-! Validation pipeline from utils.rs. Each validator returns
Except StablecoinError Unit, mirroring Result<(), StablecoinError>. -/

/-- utils.rs validate_address: the string form of the address must be
non-empty, else ZeroAddress. -/
def validate_address (a : Addr) : Except StablecoinError Unit :=
  if a = "" then .error .ZeroAddress else .ok ()

/-- utils.rs validate_not_self_address: the source skips this validation
and always returns Ok. -/
def validate_not_self_address (_a : Addr) : Except StablecoinError Unit :=
  .ok ()

/-- utils.rs validate_address_comprehensive: basic address validation
followed by the (skipped) self-address check. -/
def validate_address_comprehensive (a : Addr) : Except StablecoinError Unit :=
  match validate_address a with
  | .error e => .error e
  | .ok () => validate_not_self_address a

/-- utils.rs validate_amount_range: below MIN_AMOUNT is InvalidAmount,
above MAX_SINGLE_OPERATION (when operation limits are enabled) is
AmountTooLarge. -/
def validate_amount_range (amount : Int) : Except StablecoinError Unit :=
  if amount < MIN_AMOUNT then .error .InvalidAmount
  else if ENABLE_OPERATION_LIMITS ∧ amount > MAX_SINGLE_OPERATION then .error .AmountTooLarge
  else .ok ()

/-- Overflow-checked i128 addition (i128::checked_add): the mathematical
sum when it fits in a signed 128-bit integer, none on overflow. -/
def i128_checked_add (a b : Int) : Option Int :=
  if -(2 ^ 127) ≤ a + b ∧ a + b ≤ 2 ^ 127 - 1 then some (a + b) else none

/-- utils.rs validate_supply_limits: checked addition of the current
supply and the mint amount, AmountTooLarge on overflow, ExceedsMaxSupply
when the new supply would exceed MAX_SUPPLY. -/
def validate_supply_limits (s : CState) (mint_amount : Int) : Except StablecoinError Unit :=
  if ¬ENABLE_SUPPLY_LIMITS then .ok ()
  else
    match i128_checked_add s.total_supply mint_amount with
    | none => .error .AmountTooLarge
    | some new_supply =>
      if new_supply > MAX_SUPPLY then .error .ExceedsMaxSupply else .ok ()

/-- utils.rs validate_transfer_addresses: from = to is SelfTransfer. -/
def validate_transfer_addresses (fr toA : Addr) : Except StablecoinError Unit :=
  if fr = toA then .error .SelfTransfer else .ok ()

/-- utils.rs validate_balance: the account balance must cover the
required amount, else InsufficientBalance. -/
def validate_balance (s : CState) (a : Addr) (required_amount : Int) :
    Except StablecoinError Unit :=
  if getBalance s.balances a < required_amount then .error .InsufficientBalance else .ok ()

/-- utils.rs validate_contract_initialized: the token name metadata must
be non-empty, else ContractNotInitialized. -/
def validate_contract_initialized (s : CState) : Except StablecoinError Unit :=
  if s.name = "" then .error .ContractNotInitialized else .ok ()

/-- utils.rs validate_mint_comprehensive: initialized, recipient address,
amount range, then supply limits, in that order, short-circuiting. -/
def validate_mint_comprehensive (s : CState) (toA : Addr) (amount : Int) :
    Except StablecoinError Unit :=
  match validate_contract_initialized s with
  | .error e => .error e
  | .ok () =>
    match validate_address_comprehensive toA with
    | .error e => .error e
    | .ok () =>
      match validate_amount_range amount with
      | .error e => .error e
      | .ok () => validate_supply_limits s amount

/-- utils.rs validate_transfer_comprehensive: initialized, from address,
to address, self-transfer check, amount range, then balance, in that
order, short-circuiting. -/
def validate_transfer_comprehensive (s : CState) (fr toA : Addr) (amount : Int) :
    Except StablecoinError Unit :=
  match validate_contract_initialized s with
  | .error e => .error e
  | .ok () =>
    match validate_address_comprehensive fr with
    | .error e => .error e
    | .ok () =>
      match validate_address_comprehensive toA with
      | .error e => .error e
      | .ok () =>
        match validate_transfer_addresses fr toA with
        | .error e => .error e
        | .ok () =>
          match validate_amount_range amount with
          | .error e => .error e
          | .ok () => validate_balance s fr amount

/-- utils.rs validate_burn_comprehensive: initialized, from address,
amount range, then balance, in that order, short-circuiting. -/
def validate_burn_comprehensive (s : CState) (fr : Addr) (amount : Int) :
    Except StablecoinError Unit :=
  match validate_contract_initialized s with
  | .error e => .error e
  | .ok () =>
    match validate_address_comprehensive fr with
    | .error e => .error e
    | .ok () =>
      match validate_amount_range amount with
      | .error e => .error e
      | .ok () => validate_balance s fr amount

/-! Ledger primitives of the external stellar_fungible Base library,
modelled from the spec since that crate is not part of this repository.
The Soroban host authenticates a set of addresses per invocation; it is
passed to each call as the list of authenticated addresses, and a
require_auth on an address outside it aborts the call (CallError.authFail). -/

namespace Base

/-- Modelled from the spec: Base::mint of the external stellar_fungible
crate (spec 4.1: mint increases balance[to] and total_supply by amount;
the amount was validated upstream by the pipeline). -/
def mint (s : CState) (toA : Addr) (amount : Int) : CState :=
  { s with
    balances := setBalance s.balances toA (getBalance s.balances toA + amount),
    total_supply := s.total_supply + amount }

/-- Modelled from the spec: Base::transfer of the external
stellar_fungible crate (spec 4.1 and 6: the from account must be
authenticated; requires balance[from] >= amount; debits from then credits
to; supply unchanged). -/
def transfer (s : CState) (auth : List Addr) (fr toA : Addr) (amount : Int) :
    Except CallError CState :=
  if fr ∉ auth then .error .authFail
  else if getBalance s.balances fr < amount then .error (.contractErr .InsufficientBalance)
  else .ok { s with balances := (setBalance (setBalance s.balances fr (getBalance s.balances fr - amount)) toA (getBalance (setBalance s.balances fr (getBalance s.balances fr - amount)) toA + amount)) }

/-- Modelled from the spec: Base::transfer_from of the external
stellar_fungible crate (spec 4.1 and 6: the spender must be
authenticated; as transfer, plus requires allowance[from][spender] >=
amount and the allowance not expired at the current ledger height;
decrements the allowance by amount after the transfer). -/
def transfer_from (s : CState) (auth : List Addr) (spender fr toA : Addr) (amount : Int) :
    Except CallError CState :=
  if spender ∉ auth then .error .authFail
  else if (getAllow s.allowances (fr, spender)).1 < amount ∨
      (getAllow s.allowances (fr, spender)).2 < s.ledger_seq then
    .error (.contractErr .InsufficientAllowance)
  else if getBalance s.balances fr < amount then .error (.contractErr .InsufficientBalance)
  else .ok { s with
    balances := (setBalance (setBalance s.balances fr (getBalance s.balances fr - amount)) toA (getBalance (setBalance s.balances fr (getBalance s.balances fr - amount)) toA + amount)),
    allowances := (setAllow s.allowances (fr, spender) ((getAllow s.allowances (fr, spender)).1 - amount, (getAllow s.allowances (fr, spender)).2)) }

/-- Modelled from the spec: Base::burn of the external stellar_fungible
crate (spec 4.1 and 6: the from account must be authenticated; requires
balance[from] >= amount; decreases balance[from] and total_supply by
amount). -/
def burn (s : CState) (auth : List Addr) (fr : Addr) (amount : Int) :
    Except CallError CState :=
  if fr ∉ auth then .error .authFail
  else if getBalance s.balances fr < amount then .error (.contractErr .InsufficientBalance)
  else .ok { s with
    balances := (setBalance s.balances fr (getBalance s.balances fr - amount)),
    total_supply := s.total_supply - amount }

/-- Modelled from the spec: Base::burn_from of the external
stellar_fungible crate (spec 4.1 and 6: the spender must be
authenticated; as burn, plus the same allowance check and decrement as
transfer_from). -/
def burn_from (s : CState) (auth : List Addr) (spender fr : Addr) (amount : Int) :
    Except CallError CState :=
  if spender ∉ auth then .error .authFail
  else if (getAllow s.allowances (fr, spender)).1 < amount ∨
      (getAllow s.allowances (fr, spender)).2 < s.ledger_seq then
    .error (.contractErr .InsufficientAllowance)
  else if getBalance s.balances fr < amount then .error (.contractErr .InsufficientBalance)
  else .ok { s with
    balances := (setBalance s.balances fr (getBalance s.balances fr - amount)),
    total_supply := s.total_supply - amount,
    allowances := (setAllow s.allowances (fr, spender) ((getAllow s.allowances (fr, spender)).1 - amount, (getAllow s.allowances (fr, spender)).2)) }

/-- Modelled from the spec: Base::approve of the external
stellar_fungible crate (spec 4.1 and 6: the owner must be authenticated;
overwrites, not adds to, the existing allowance record with the given
amount and expiration ledger). -/
def approve (s : CState) (auth : List Addr) (fr spender : Addr) (amount : Int)
    (expiration_ledger : Nat) : Except CallError CState :=
  if fr ∉ auth then .error .authFail
  else .ok { s with allowances := setAllow s.allowances (fr, spender) (amount, expiration_ledger) }

end Base

/-! Initialization, from utils.rs initialize_token /
initialize_access_control and contract.rs initialize. -/

/-- utils.rs initialize_token: sets the token metadata (decimals, name,
symbol) via Base::set_metadata. -/
def init_token (s : CState) : CState :=
  { s with name := NAME, symbol := TOKEN_SYMBOL, decimals := DECIMALS }

/-- utils.rs initialize_access_control: sets the admin and grants the
pauser, upgrader and minter roles. -/
def init_access_control (s : CState) (admin pauser upgrader minter : Addr) : CState :=
  { s with admin := some admin, pauser := some pauser, upgrader := some upgrader,
           minter := some minter }

/-- contract.rs initialize: token metadata then access control. -/
def init_contract (s : CState) (admin pauser upgrader minter : Addr) : CState :=
  init_access_control (init_token s) admin pauser upgrader minter

/-- The blank pre-deployment state: no metadata, unpaused, empty ledger,
no roles. -/
def emptyState : CState :=
  { name := "", symbol := "", decimals := 0, paused := false, balances := [],
    allowances := [], total_supply := 0, admin := none, minter := none,
    pauser := none, upgrader := none, ledger_seq := 0 }

/-- The state right after contract.rs initialize on a fresh deployment. -/
def initState (admin pauser upgrader minter : Addr) : CState :=
  init_contract emptyState admin pauser upgrader minter

/-! Entry points of contract.rs. Each takes the list of addresses the
host has authenticated for this invocation. -/

namespace MyStablecoin

/-- contract.rs mint: pause check, then caller require_auth, then
ensure_role minter, then validate_mint_comprehensive, then Base::mint. -/
def mint (s : CState) (auth : List Addr) (caller toA : Addr) (amount : Int) :
    Except CallError CState :=
  if s.paused then .error (.contractErr .Paused)
  else if caller ∉ auth then .error .authFail
  else if s.minter ≠ some caller then .error .roleFail
  else
    match validate_mint_comprehensive s toA amount with
    | .error e => .error (.contractErr e)
    | .ok () => .ok (Base.mint s toA amount)

/-- Loop body of contract.rs batch_mint: validate then mint each
recipient pair in order, short-circuiting on the first validation
error. -/
def batch_mint_loop (s : CState) (recipients : List (Addr × Int)) :
    Except CallError CState :=
  match recipients with
  | [] => .ok s
  | (account, amount) :: rest =>
    match validate_mint_comprehensive s account amount with
    | .error e => .error (.contractErr e)
    | .ok () => batch_mint_loop (Base.mint s account amount) rest

/-- contract.rs batch_mint: pause check, then caller require_auth, then
ensure_role minter, then the validate-and-mint loop over the
recipients. -/
def batch_mint (s : CState) (auth : List Addr) (caller : Addr)
    (recipients : List (Addr × Int)) : Except CallError CState :=
  if s.paused then .error (.contractErr .Paused)
  else if caller ∉ auth then .error .authFail
  else if s.minter ≠ some caller then .error .roleFail
  else batch_mint_loop s recipients

/-- contract.rs transfer: pause check, then
validate_transfer_comprehensive, then Base::transfer (which performs the
from-account authentication). -/
def transfer (s : CState) (auth : List Addr) (fr toA : Addr) (amount : Int) :
    Except CallError CState :=
  if s.paused then .error (.contractErr .Paused)
  else
    match validate_transfer_comprehensive s fr toA amount with
    | .error e => .error (.contractErr e)
    | .ok () => Base.transfer s auth fr toA amount

/-- contract.rs transfer_from: pause check, then
validate_transfer_comprehensive, then Base::transfer_from (spender
authentication, allowance check and decrement). -/
def transfer_from (s : CState) (auth : List Addr) (spender fr toA : Addr) (amount : Int) :
    Except CallError CState :=
  if s.paused then .error (.contractErr .Paused)
  else
    match validate_transfer_comprehensive s fr toA amount with
    | .error e => .error (.contractErr e)
    | .ok () => Base.transfer_from s auth spender fr toA amount

/-- contract.rs burn: pause check, then validate_burn_comprehensive,
then Base::burn. -/
def burn (s : CState) (auth : List Addr) (fr : Addr) (amount : Int) :
    Except CallError CState :=
  if s.paused then .error (.contractErr .Paused)
  else
    match validate_burn_comprehensive s fr amount with
    | .error e => .error (.contractErr e)
    | .ok () => Base.burn s auth fr amount

/-- contract.rs burn_from: pause check, then validate_burn_comprehensive,
then Base::burn_from. -/
def burn_from (s : CState) (auth : List Addr) (spender fr : Addr) (amount : Int) :
    Except CallError CState :=
  if s.paused then .error (.contractErr .Paused)
  else
    match validate_burn_comprehensive s fr amount with
    | .error e => .error (.contractErr e)
    | .ok () => Base.burn_from s auth spender fr amount

/-- contract.rs approve: pause check only, then Base::approve; no
validation pipeline stage. -/
def approve (s : CState) (auth : List Addr) (fr spender : Addr) (amount : Int)
    (expiration_ledger : Nat) : Except CallError CState :=
  if s.paused then .error (.contractErr .Paused)
  else Base.approve s auth fr spender amount expiration_ledger

/-- contract.rs pause: caller require_auth, then ensure_role pauser, then
set the pause flag (spec 4.3: idempotent pause is allowed). -/
def pause (s : CState) (auth : List Addr) (caller : Addr) : Except CallError CState :=
  if caller ∉ auth then .error .authFail
  else if s.pauser ≠ some caller then .error .roleFail
  else .ok { s with paused := true }

/-- contract.rs unpause: caller require_auth, then ensure_role pauser,
then clear the pause flag. -/
def unpause (s : CState) (auth : List Addr) (caller : Addr) : Except CallError CState :=
  if caller ∉ auth then .error .authFail
  else if s.pauser ≠ some caller then .error .roleFail
  else .ok { s with paused := false }

/-! Read-only entry points of contract.rs. -/

/-- contract.rs balance: Base::balance. -/
def balance (s : CState) (address : Addr) : Int :=
  getBalance s.balances address

/-- contract.rs allowance: Base::allowance, the recorded amount. -/
def allowance (s : CState) (fr spender : Addr) : Int :=
  (getAllow s.allowances (fr, spender)).1

/-- contract.rs name. -/
def name (s : CState) : String := s.name

/-- contract.rs symbol. -/
def symbol (s : CState) : String := s.symbol

/-- contract.rs decimals. -/
def decimals (s : CState) : Nat := s.decimals

/-- contract.rs total_supply. -/
def total_supply (s : CState) : Int := s.total_supply

/-- contract.rs is_paused. -/
def is_paused (s : CState) : Bool := s.paused

/-- contract.rs has_role_minter. -/
def has_role_minter (s : CState) (address : Addr) : Bool :=
  s.minter = some address

/-- contract.rs has_role_pauser. -/
def has_role_pauser (s : CState) (address : Addr) : Bool :=
  s.pauser = some address

/-- contract.rs has_role_upgrader. -/
def has_role_upgrader (s : CState) (address : Addr) : Bool :=
  s.upgrader = some address

/-- contract.rs get_admin. -/
def get_admin (s : CState) : Option Addr := s.admin

end MyStablecoin

/-! Invocation-level semantics. -/

/-- One mutating entry-point invocation with its host-authenticated
address list and arguments. -/
inductive Call where
  | mint (auth : List Addr) (caller toA : Addr) (amount : Int)
  | batchMint (auth : List Addr) (caller : Addr) (recipients : List (Addr × Int))
  | transfer (auth : List Addr) (fr toA : Addr) (amount : Int)
  | transferFrom (auth : List Addr) (spender fr toA : Addr) (amount : Int)
  | burn (auth : List Addr) (fr : Addr) (amount : Int)
  | burnFrom (auth : List Addr) (spender fr : Addr) (amount : Int)
  | approve (auth : List Addr) (fr spender : Addr) (amount : Int) (expiration_ledger : Nat)
  | pause (auth : List Addr) (caller : Addr)
  | unpause (auth : List Addr) (caller : Addr)
  deriving DecidableEq, Repr

/-- Dispatch a call to its entry point. -/
def dispatch (s : CState) : Call → Except CallError CState
  | .mint auth caller toA amount => MyStablecoin.mint s auth caller toA amount
  | .batchMint auth caller recipients => MyStablecoin.batch_mint s auth caller recipients
  | .transfer auth fr toA amount => MyStablecoin.transfer s auth fr toA amount
  | .transferFrom auth spender fr toA amount =>
      MyStablecoin.transfer_from s auth spender fr toA amount
  | .burn auth fr amount => MyStablecoin.burn s auth fr amount
  | .burnFrom auth spender fr amount => MyStablecoin.burn_from s auth spender fr amount
  | .approve auth fr spender amount exp => MyStablecoin.approve s auth fr spender amount exp
  | .pause auth caller => MyStablecoin.pause s auth caller
  | .unpause auth caller => MyStablecoin.unpause s auth caller

/-- Modelled from the spec: the Soroban host commits the state of a
successful invocation and discards every change of a failed one (spec 5:
each entry point is one atomic unit of work; a failed call leaves all
state unchanged). -/
def applyCall (s : CState) (c : Call) : CState :=
  match dispatch s c with
  | .ok s2 => s2
  | .error _ => s

/-- States reachable from a freshly initialized contract by any sequence
of entry-point invocations. -/
inductive Reachable : CState → Prop where
  | init (admin pauser upgrader minter : Addr) :
      Reachable (initState admin pauser upgrader minter)
  | step (s : CState) (c : Call) : Reachable s → Reachable (applyCall s c)

/-! Lemmas about the balance and allowance maps. -/

theorem getBalance_set_self (bs : List (Addr × Int)) (a : Addr) (v : Int) :
    getBalance (setBalance bs a v) a = v := by
  induction bs with
  | nil => simp [setBalance, getBalance]
  | cons hd tl ih =>
    obtain ⟨k, w⟩ := hd
    by_cases h : k = a
    · subst h; simp [setBalance, getBalance]
    · simp [setBalance, getBalance, h, ih]

theorem getBalance_set_other (bs : List (Addr × Int)) (a b : Addr) (v : Int) (hne : b ≠ a) :
    getBalance (setBalance bs a v) b = getBalance bs b := by
  induction bs with
  | nil => simp [setBalance, getBalance, Ne.symm hne]
  | cons hd tl ih =>
    obtain ⟨k, w⟩ := hd
    by_cases h : k = a
    · subst h
      simp [setBalance, getBalance, Ne.symm hne]
    · simp [setBalance, getBalance, h, ih]

theorem sumBal_set (bs : List (Addr × Int)) (a : Addr) (v : Int) :
    sumBal (setBalance bs a v) = sumBal bs + v - getBalance bs a := by
  induction bs with
  | nil => simp [setBalance, sumBal, getBalance]
  | cons hd tl ih =>
    obtain ⟨k, w⟩ := hd
    by_cases h : k = a
    · subst h; simp [setBalance, sumBal, getBalance]; ring
    · simp [setBalance, sumBal, getBalance, h] at ih ⊢
      omega

theorem getAllow_set_self (al : List ((Addr × Addr) × Int × Nat)) (k : Addr × Addr)
    (v : Int × Nat) : getAllow (setAllow al k v) k = v := by
  induction al with
  | nil => simp [setAllow, getAllow]
  | cons hd tl ih =>
    obtain ⟨k2, w⟩ := hd
    by_cases h : k2 = k
    · subst h; simp [setAllow, getAllow]
    · simp [setAllow, getAllow, h, ih]

/-! Characterizations of the validators. -/

theorem validate_contract_initialized_ok_iff (s : CState) :
    validate_contract_initialized s = .ok () ↔ s.name ≠ "" := by
  unfold validate_contract_initialized
  by_cases h : s.name = "" <;> simp [h]

theorem validate_address_comprehensive_ok_iff (a : Addr) :
    validate_address_comprehensive a = .ok () ↔ a ≠ "" := by
  unfold validate_address_comprehensive validate_address validate_not_self_address
  by_cases h : a = "" <;> simp [h]

theorem validate_amount_range_ok_iff (amount : Int) :
    validate_amount_range amount = .ok () ↔
      MIN_AMOUNT ≤ amount ∧ amount ≤ MAX_SINGLE_OPERATION := by
  unfold validate_amount_range ENABLE_OPERATION_LIMITS MIN_AMOUNT MAX_SINGLE_OPERATION
  by_cases h1 : amount < 5 <;> by_cases h2 : amount > 100000000 <;>
    simp [h1, h2] <;> omega

theorem validate_supply_limits_ok_iff (s : CState) (amt : Int) :
    validate_supply_limits s amt = .ok () ↔
      -(2 ^ 127) ≤ s.total_supply + amt ∧ s.total_supply + amt ≤ 2 ^ 127 - 1 ∧
      s.total_supply + amt ≤ MAX_SUPPLY := by
  unfold validate_supply_limits i128_checked_add ENABLE_SUPPLY_LIMITS MAX_SUPPLY
  by_cases h1 : -(2 ^ 127) ≤ s.total_supply + amt ∧ s.total_supply + amt ≤ 2 ^ 127 - 1 <;>
    by_cases h2 : s.total_supply + amt > 1000000000
  · rw [if_pos h1]
    simp only [not_true, ite_false, Bool.not_eq_true]
    rw [if_pos h2]
    simp only [reduceCtorEq, false_iff]
    omega
  · rw [if_pos h1]
    simp only [not_true, ite_false, Bool.not_eq_true]
    rw [if_neg h2]
    simp only [true_iff]
    omega
  · rw [if_neg h1]
    simp only [not_true, ite_false, Bool.not_eq_true]
    simp only [reduceCtorEq, false_iff]
    omega
  · rw [if_neg h1]
    simp only [not_true, ite_false, Bool.not_eq_true]
    simp only [reduceCtorEq, false_iff]
    omega

theorem validate_transfer_addresses_ok_iff (fr toA : Addr) :
    validate_transfer_addresses fr toA = .ok () ↔ fr ≠ toA := by
  unfold validate_transfer_addresses
  by_cases h : fr = toA <;> simp [h]

theorem validate_balance_ok_iff (s : CState) (a : Addr) (amt : Int) :
    validate_balance s a amt = .ok () ↔ amt ≤ getBalance s.balances a := by
  unfold validate_balance
  by_cases h : getBalance s.balances a < amt <;> simp [h] <;> omega

theorem validate_mint_comprehensive_ok_iff (s : CState) (toA : Addr) (amt : Int) :
    validate_mint_comprehensive s toA amt = .ok () ↔
      s.name ≠ "" ∧ toA ≠ "" ∧ MIN_AMOUNT ≤ amt ∧ amt ≤ MAX_SINGLE_OPERATION ∧
      -(2 ^ 127) ≤ s.total_supply + amt ∧ s.total_supply + amt ≤ 2 ^ 127 - 1 ∧
      s.total_supply + amt ≤ MAX_SUPPLY := by
  unfold validate_mint_comprehensive
  cases h1 : validate_contract_initialized s with
  | error e =>
    simp only [h1, reduceCtorEq, false_iff]
    intro hc
    exact absurd ((validate_contract_initialized_ok_iff s).mpr hc.1) (by simp [h1])
  | ok u =>
    obtain ⟨⟩ := u
    have hn := (validate_contract_initialized_ok_iff s).mp h1
    simp only [h1]
    cases h2 : validate_address_comprehensive toA with
    | error e =>
      simp only [reduceCtorEq, false_iff]
      intro hc
      exact absurd ((validate_address_comprehensive_ok_iff toA).mpr hc.2.1) (by simp [h2])
    | ok u2 =>
      obtain ⟨⟩ := u2
      have ht := (validate_address_comprehensive_ok_iff toA).mp h2
      cases h3 : validate_amount_range amt with
      | error e =>
        simp only [reduceCtorEq, false_iff]
        intro hc
        exact absurd ((validate_amount_range_ok_iff amt).mpr ⟨hc.2.2.1, hc.2.2.2.1⟩)
          (by simp [h3])
      | ok u3 =>
        obtain ⟨⟩ := u3
        have ha := (validate_amount_range_ok_iff amt).mp h3
        rw [validate_supply_limits_ok_iff]
        constructor
        · rintro ⟨r1, r2, r3⟩
          exact ⟨hn, ht, ha.1, ha.2, r1, r2, r3⟩
        · rintro ⟨-, -, -, -, r1, r2, r3⟩
          exact ⟨r1, r2, r3⟩

theorem validate_transfer_comprehensive_ok_iff (s : CState) (fr toA : Addr) (amt : Int) :
    validate_transfer_comprehensive s fr toA amt = .ok () ↔
      s.name ≠ "" ∧ fr ≠ "" ∧ toA ≠ "" ∧ fr ≠ toA ∧ MIN_AMOUNT ≤ amt ∧
      amt ≤ MAX_SINGLE_OPERATION ∧ amt ≤ getBalance s.balances fr := by
  unfold validate_transfer_comprehensive
  cases h1 : validate_contract_initialized s with
  | error e =>
    simp only [h1, reduceCtorEq, false_iff]
    intro hc
    exact absurd ((validate_contract_initialized_ok_iff s).mpr hc.1) (by simp [h1])
  | ok u =>
    obtain ⟨⟩ := u
    have hn := (validate_contract_initialized_ok_iff s).mp h1
    simp only [h1]
    cases h2 : validate_address_comprehensive fr with
    | error e =>
      simp only [reduceCtorEq, false_iff]
      intro hc
      exact absurd ((validate_address_comprehensive_ok_iff fr).mpr hc.2.1) (by simp [h2])
    | ok u2 =>
      obtain ⟨⟩ := u2
      have hf := (validate_address_comprehensive_ok_iff fr).mp h2
      cases h3 : validate_address_comprehensive toA with
      | error e =>
        simp only [reduceCtorEq, false_iff]
        intro hc
        exact absurd ((validate_address_comprehensive_ok_iff toA).mpr hc.2.2.1) (by simp [h3])
      | ok u3 =>
        obtain ⟨⟩ := u3
        have ht := (validate_address_comprehensive_ok_iff toA).mp h3
        cases h4 : validate_transfer_addresses fr toA with
        | error e =>
          simp only [reduceCtorEq, false_iff]
          intro hc
          exact absurd ((validate_transfer_addresses_ok_iff fr toA).mpr hc.2.2.2.1)
            (by simp [h4])
        | ok u4 =>
          obtain ⟨⟩ := u4
          have hs := (validate_transfer_addresses_ok_iff fr toA).mp h4
          cases h5 : validate_amount_range amt with
          | error e =>
            simp only [reduceCtorEq, false_iff]
            intro hc
            exact absurd ((validate_amount_range_ok_iff amt).mpr
              ⟨hc.2.2.2.2.1, hc.2.2.2.2.2.1⟩) (by simp [h5])
          | ok u5 =>
            obtain ⟨⟩ := u5
            have ha := (validate_amount_range_ok_iff amt).mp h5
            rw [validate_balance_ok_iff]
            constructor
            · intro r
              exact ⟨hn, hf, ht, hs, ha.1, ha.2, r⟩
            · rintro ⟨-, -, -, -, -, -, r⟩
              exact r

theorem validate_burn_comprehensive_ok_iff (s : CState) (fr : Addr) (amt : Int) :
    validate_burn_comprehensive s fr amt = .ok () ↔
      s.name ≠ "" ∧ fr ≠ "" ∧ MIN_AMOUNT ≤ amt ∧ amt ≤ MAX_SINGLE_OPERATION ∧
      amt ≤ getBalance s.balances fr := by
  unfold validate_burn_comprehensive
  cases h1 : validate_contract_initialized s with
  | error e =>
    simp only [h1, reduceCtorEq, false_iff]
    intro hc
    exact absurd ((validate_contract_initialized_ok_iff s).mpr hc.1) (by simp [h1])
  | ok u =>
    obtain ⟨⟩ := u
    have hn := (validate_contract_initialized_ok_iff s).mp h1
    simp only [h1]
    cases h2 : validate_address_comprehensive fr with
    | error e =>
      simp only [reduceCtorEq, false_iff]
      intro hc
      exact absurd ((validate_address_comprehensive_ok_iff fr).mpr hc.2.1) (by simp [h2])
    | ok u2 =>
      obtain ⟨⟩ := u2
      have hf := (validate_address_comprehensive_ok_iff fr).mp h2
      cases h3 : validate_amount_range amt with
      | error e =>
        simp only [reduceCtorEq, false_iff]
        intro hc
        exact absurd ((validate_amount_range_ok_iff amt).mpr
          ⟨hc.2.2.1, hc.2.2.2.1⟩) (by simp [h3])
      | ok u3 =>
        obtain ⟨⟩ := u3
        have ha := (validate_amount_range_ok_iff amt).mp h3
        rw [validate_balance_ok_iff]
        constructor
        · intro r
          exact ⟨hn, hf, ha.1, ha.2, r⟩
        · rintro ⟨-, -, -, -, r⟩
          exact r

/-! Shapes of entry-point results. -/

theorem applyCall_eq_of_error (s : CState) (c : Call) (e : CallError)
    (h : dispatch s c = .error e) : applyCall s c = s := by
  simp [applyCall, h]

theorem applyCall_eq_of_ok (s : CState) (c : Call) (s2 : CState)
    (h : dispatch s c = .ok s2) : applyCall s c = s2 := by
  simp [applyCall, h]

theorem mint_ok_elim (s : CState) (auth : List Addr) (caller toA : Addr) (amt : Int)
    (s2 : CState) (h : MyStablecoin.mint s auth caller toA amt = .ok s2) :
    s.paused = false ∧ caller ∈ auth ∧ s.minter = some caller ∧
    validate_mint_comprehensive s toA amt = .ok () ∧ s2 = Base.mint s toA amt := by
  unfold MyStablecoin.mint at h
  by_cases hp : s.paused
  · simp [hp] at h
  · by_cases ha : caller ∈ auth
    · by_cases hm : s.minter = some caller
      · rw [if_neg (by simpa using hp), if_neg (not_not_intro ha),
          if_neg (not_not_intro hm)] at h
        cases hv : validate_mint_comprehensive s toA amt with
        | error e => rw [hv] at h; simp at h
        | ok u =>
          obtain ⟨⟩ := u
          rw [hv] at h
          simp only [Except.ok.injEq] at h
          exact ⟨by simpa using hp, ha, hm, rfl, h.symm⟩
      · simp [hp, ha, hm] at h
    · simp [hp, ha] at h

theorem batch_mint_ok_elim (s : CState) (auth : List Addr) (caller : Addr)
    (recips : List (Addr × Int)) (s2 : CState)
    (h : MyStablecoin.batch_mint s auth caller recips = .ok s2) :
    s.paused = false ∧ caller ∈ auth ∧ s.minter = some caller ∧
    MyStablecoin.batch_mint_loop s recips = .ok s2 := by
  unfold MyStablecoin.batch_mint at h
  by_cases hp : s.paused
  · simp [hp] at h
  · by_cases ha : caller ∈ auth
    · by_cases hm : s.minter = some caller
      · rw [if_neg (by simpa using hp), if_neg (not_not_intro ha),
          if_neg (not_not_intro hm)] at h
        exact ⟨by simpa using hp, ha, hm, h⟩
      · simp [hp, ha, hm] at h
    · simp [hp, ha] at h

theorem base_transfer_ok_elim (s : CState) (auth : List Addr) (fr toA : Addr) (amt : Int)
    (s2 : CState) (h : Base.transfer s auth fr toA amt = .ok s2) :
    fr ∈ auth ∧ amt ≤ getBalance s.balances fr ∧
    s2 = { s with balances := (setBalance (setBalance s.balances fr (getBalance s.balances fr - amt)) toA (getBalance (setBalance s.balances fr (getBalance s.balances fr - amt)) toA + amt)) } := by
  unfold Base.transfer at h
  by_cases ha : fr ∈ auth
  · by_cases hb : getBalance s.balances fr < amt
    · simp [ha, hb] at h
    · rw [if_neg (not_not_intro ha), if_neg hb] at h
      simp only [Except.ok.injEq] at h
      exact ⟨ha, by omega, h.symm⟩
  · simp [ha] at h

theorem transfer_ok_elim (s : CState) (auth : List Addr) (fr toA : Addr) (amt : Int)
    (s2 : CState) (h : MyStablecoin.transfer s auth fr toA amt = .ok s2) :
    s.paused = false ∧ validate_transfer_comprehensive s fr toA amt = .ok () ∧
    fr ∈ auth ∧
    s2 = { s with balances := (setBalance (setBalance s.balances fr (getBalance s.balances fr - amt)) toA (getBalance (setBalance s.balances fr (getBalance s.balances fr - amt)) toA + amt)) } := by
  unfold MyStablecoin.transfer at h
  by_cases hp : s.paused
  · simp [hp] at h
  · rw [if_neg (by simpa using hp)] at h
    cases hv : validate_transfer_comprehensive s fr toA amt with
    | error e => rw [hv] at h; simp at h
    | ok u =>
      obtain ⟨⟩ := u
      rw [hv] at h
      obtain ⟨ha, -, hs⟩ := base_transfer_ok_elim s auth fr toA amt s2 h
      exact ⟨by simpa using hp, rfl, ha, hs⟩

theorem base_transfer_from_ok_elim (s : CState) (auth : List Addr) (spender fr toA : Addr)
    (amt : Int) (s2 : CState) (h : Base.transfer_from s auth spender fr toA amt = .ok s2) :
    spender ∈ auth ∧ amt ≤ (getAllow s.allowances (fr, spender)).1 ∧
    amt ≤ getBalance s.balances fr ∧
    s2 = { s with balances := (setBalance (setBalance s.balances fr (getBalance s.balances fr - amt)) toA (getBalance (setBalance s.balances fr (getBalance s.balances fr - amt)) toA + amt)), allowances := (setAllow s.allowances (fr, spender) ((getAllow s.allowances (fr, spender)).1 - amt, (getAllow s.allowances (fr, spender)).2)) } := by
  unfold Base.transfer_from at h
  by_cases ha : spender ∈ auth
  · by_cases hal : (getAllow s.allowances (fr, spender)).1 < amt ∨
      (getAllow s.allowances (fr, spender)).2 < s.ledger_seq
    · simp [ha, hal] at h
    · by_cases hb : getBalance s.balances fr < amt
      · simp [ha, hal, hb] at h
      · rw [if_neg (not_not_intro ha), if_neg hal, if_neg hb] at h
        simp only [Except.ok.injEq] at h
        exact ⟨ha, by omega, by omega, h.symm⟩
  · simp [ha] at h

theorem transfer_from_ok_elim (s : CState) (auth : List Addr) (spender fr toA : Addr)
    (amt : Int) (s2 : CState)
    (h : MyStablecoin.transfer_from s auth spender fr toA amt = .ok s2) :
    s.paused = false ∧ validate_transfer_comprehensive s fr toA amt = .ok () ∧
    spender ∈ auth ∧
    s2 = { s with balances := (setBalance (setBalance s.balances fr (getBalance s.balances fr - amt)) toA (getBalance (setBalance s.balances fr (getBalance s.balances fr - amt)) toA + amt)), allowances := (setAllow s.allowances (fr, spender) ((getAllow s.allowances (fr, spender)).1 - amt, (getAllow s.allowances (fr, spender)).2)) } := by
  unfold MyStablecoin.transfer_from at h
  by_cases hp : s.paused
  · simp [hp] at h
  · rw [if_neg (by simpa using hp)] at h
    cases hv : validate_transfer_comprehensive s fr toA amt with
    | error e => rw [hv] at h; simp at h
    | ok u =>
      obtain ⟨⟩ := u
      rw [hv] at h
      obtain ⟨ha, -, -, hs⟩ := base_transfer_from_ok_elim s auth spender fr toA amt s2 h
      exact ⟨by simpa using hp, rfl, ha, hs⟩

theorem base_burn_ok_elim (s : CState) (auth : List Addr) (fr : Addr) (amt : Int)
    (s2 : CState) (h : Base.burn s auth fr amt = .ok s2) :
    fr ∈ auth ∧ amt ≤ getBalance s.balances fr ∧
    s2 = { s with balances := (setBalance s.balances fr (getBalance s.balances fr - amt)), total_supply := s.total_supply - amt } := by
  unfold Base.burn at h
  by_cases ha : fr ∈ auth
  · by_cases hb : getBalance s.balances fr < amt
    · simp [ha, hb] at h
    · rw [if_neg (not_not_intro ha), if_neg hb] at h
      simp only [Except.ok.injEq] at h
      exact ⟨ha, by omega, h.symm⟩
  · simp [ha] at h

theorem burn_ok_elim (s : CState) (auth : List Addr) (fr : Addr) (amt : Int)
    (s2 : CState) (h : MyStablecoin.burn s auth fr amt = .ok s2) :
    s.paused = false ∧ validate_burn_comprehensive s fr amt = .ok () ∧ fr ∈ auth ∧
    s2 = { s with balances := (setBalance s.balances fr (getBalance s.balances fr - amt)), total_supply := s.total_supply - amt } := by
  unfold MyStablecoin.burn at h
  by_cases hp : s.paused
  · simp [hp] at h
  · rw [if_neg (by simpa using hp)] at h
    cases hv : validate_burn_comprehensive s fr amt with
    | error e => rw [hv] at h; simp at h
    | ok u =>
      obtain ⟨⟩ := u
      rw [hv] at h
      obtain ⟨ha, -, hs⟩ := base_burn_ok_elim s auth fr amt s2 h
      exact ⟨by simpa using hp, rfl, ha, hs⟩

theorem base_burn_from_ok_elim (s : CState) (auth : List Addr) (spender fr : Addr)
    (amt : Int) (s2 : CState) (h : Base.burn_from s auth spender fr amt = .ok s2) :
    spender ∈ auth ∧ amt ≤ getBalance s.balances fr ∧
    s2 = { s with balances := (setBalance s.balances fr (getBalance s.balances fr - amt)), total_supply := s.total_supply - amt, allowances := (setAllow s.allowances (fr, spender) ((getAllow s.allowances (fr, spender)).1 - amt, (getAllow s.allowances (fr, spender)).2)) } := by
  unfold Base.burn_from at h
  by_cases ha : spender ∈ auth
  · by_cases hal : (getAllow s.allowances (fr, spender)).1 < amt ∨
      (getAllow s.allowances (fr, spender)).2 < s.ledger_seq
    · simp [ha, hal] at h
    · by_cases hb : getBalance s.balances fr < amt
      · simp [ha, hal, hb] at h
      · rw [if_neg (not_not_intro ha), if_neg hal, if_neg hb] at h
        simp only [Except.ok.injEq] at h
        exact ⟨ha, by omega, h.symm⟩
  · simp [ha] at h

theorem burn_from_ok_elim (s : CState) (auth : List Addr) (spender fr : Addr)
    (amt : Int) (s2 : CState) (h : MyStablecoin.burn_from s auth spender fr amt = .ok s2) :
    s.paused = false ∧ validate_burn_comprehensive s fr amt = .ok () ∧ spender ∈ auth ∧
    s2 = { s with balances := (setBalance s.balances fr (getBalance s.balances fr - amt)), total_supply := s.total_supply - amt, allowances := (setAllow s.allowances (fr, spender) ((getAllow s.allowances (fr, spender)).1 - amt, (getAllow s.allowances (fr, spender)).2)) } := by
  unfold MyStablecoin.burn_from at h
  by_cases hp : s.paused
  · simp [hp] at h
  · rw [if_neg (by simpa using hp)] at h
    cases hv : validate_burn_comprehensive s fr amt with
    | error e => rw [hv] at h; simp at h
    | ok u =>
      obtain ⟨⟩ := u
      rw [hv] at h
      obtain ⟨ha, -, hs⟩ := base_burn_from_ok_elim s auth spender fr amt s2 h
      exact ⟨by simpa using hp, rfl, ha, hs⟩

theorem approve_ok_elim (s : CState) (auth : List Addr) (fr spender : Addr) (amt : Int)
    (exp : Nat) (s2 : CState)
    (h : MyStablecoin.approve s auth fr spender amt exp = .ok s2) :
    s.paused = false ∧ fr ∈ auth ∧
    s2 = { s with allowances := (setAllow s.allowances (fr, spender) (amt, exp)) } := by
  unfold MyStablecoin.approve Base.approve at h
  by_cases hp : s.paused
  · simp [hp] at h
  · by_cases ha : fr ∈ auth
    · rw [if_neg (by simpa using hp), if_neg (not_not_intro ha)] at h
      simp only [Except.ok.injEq] at h
      exact ⟨by simpa using hp, ha, h.symm⟩
    · simp [hp, ha] at h

theorem pause_ok_elim (s : CState) (auth : List Addr) (caller : Addr) (s2 : CState)
    (h : MyStablecoin.pause s auth caller = .ok s2) :
    s2 = { s with paused := true } := by
  unfold MyStablecoin.pause at h
  by_cases ha : caller ∈ auth
  · by_cases hm : s.pauser = some caller
    · rw [if_neg (not_not_intro ha), if_neg (not_not_intro hm)] at h
      simp only [Except.ok.injEq] at h
      exact h.symm
    · simp [ha, hm] at h
  · simp [ha] at h

theorem unpause_ok_elim (s : CState) (auth : List Addr) (caller : Addr) (s2 : CState)
    (h : MyStablecoin.unpause s auth caller = .ok s2) :
    s2 = { s with paused := false } := by
  unfold MyStablecoin.unpause at h
  by_cases ha : caller ∈ auth
  · by_cases hm : s.pauser = some caller
    · rw [if_neg (not_not_intro ha), if_neg (not_not_intro hm)] at h
      simp only [Except.ok.injEq] at h
      exact h.symm
    · simp [ha, hm] at h
  · simp [ha] at h

/-! Preservation of the supply accounting invariant. -/

theorem base_mint_preserves_supply_sum (s : CState) (a : Addr) (amt : Int)
    (h : s.total_supply = sumBal s.balances) :
    (Base.mint s a amt).total_supply = sumBal (Base.mint s a amt).balances := by
  simp [Base.mint, sumBal_set]
  omega

theorem batch_loop_preserves_supply_sum (recips : List (Addr × Int)) :
    ∀ s s2, MyStablecoin.batch_mint_loop s recips = .ok s2 →
      s.total_supply = sumBal s.balances → s2.total_supply = sumBal s2.balances := by
  induction recips with
  | nil =>
    intro s s2 h hinv
    simp only [MyStablecoin.batch_mint_loop, Except.ok.injEq] at h
    subst h
    exact hinv
  | cons p rest ih =>
    obtain ⟨a, v⟩ := p
    intro s s2 h hinv
    unfold MyStablecoin.batch_mint_loop at h
    cases hv : validate_mint_comprehensive s a v with
    | error e => rw [hv] at h; simp at h
    | ok u =>
      obtain ⟨⟩ := u
      rw [hv] at h
      exact ih _ _ h (base_mint_preserves_supply_sum s a v hinv)

theorem dispatch_ok_preserves_supply_sum (s : CState) (c : Call) (s2 : CState)
    (h : dispatch s c = .ok s2) (hinv : s.total_supply = sumBal s.balances) :
    s2.total_supply = sumBal s2.balances := by
  cases c with
  | mint auth caller toA amt =>
    obtain ⟨-, -, -, -, hs⟩ := mint_ok_elim _ _ _ _ _ _ h
    subst hs
    exact base_mint_preserves_supply_sum s toA amt hinv
  | batchMint auth caller recips =>
    obtain ⟨-, -, -, hl⟩ := batch_mint_ok_elim _ _ _ _ _ h
    exact batch_loop_preserves_supply_sum recips s s2 hl hinv
  | transfer auth fr toA amt =>
    obtain ⟨-, -, -, hs⟩ := transfer_ok_elim _ _ _ _ _ _ h
    subst hs
    simp [sumBal_set]
    omega
  | transferFrom auth spender fr toA amt =>
    obtain ⟨-, -, -, hs⟩ := transfer_from_ok_elim _ _ _ _ _ _ _ h
    subst hs
    simp [sumBal_set]
    omega
  | burn auth fr amt =>
    obtain ⟨-, -, -, hs⟩ := burn_ok_elim _ _ _ _ _ h
    subst hs
    simp [sumBal_set]
    omega
  | burnFrom auth spender fr amt =>
    obtain ⟨-, -, -, hs⟩ := burn_from_ok_elim _ _ _ _ _ _ h
    subst hs
    simp [sumBal_set]
    omega
  | approve auth fr spender amt exp =>
    obtain ⟨-, -, hs⟩ := approve_ok_elim _ _ _ _ _ _ _ h
    subst hs
    exact hinv
  | pause auth caller =>
    have hs := pause_ok_elim _ _ _ _ h
    subst hs
    exact hinv
  | unpause auth caller =>
    have hs := unpause_ok_elim _ _ _ _ h
    subst hs
    exact hinv

theorem reachable_supply_sum (s : CState) (h : Reachable s) :
    s.total_supply = sumBal s.balances := by
  induction h with
  | init a p u m =>
    simp [initState, init_contract, init_access_control, init_token, emptyState, sumBal]
  | step s c hs ih =>
    cases hd : dispatch s c with
    | error e =>
      rw [applyCall_eq_of_error s c e hd]
      exact ih
    | ok s2 =>
      rw [applyCall_eq_of_ok s c s2 hd]
      exact dispatch_ok_preserves_supply_sum s c s2 hd ih

/-! Preservation of balance non-negativity. -/

theorem base_mint_preserves_nonneg (s : CState) (a : Addr) (amt : Int) (hamt : 0 ≤ amt)
    (h : ∀ x, 0 ≤ getBalance s.balances x) :
    ∀ x, 0 ≤ getBalance (Base.mint s a amt).balances x := by
  intro x
  by_cases hx : x = a
  · subst hx
    simp only [Base.mint]
    rw [getBalance_set_self]
    have := h x
    omega
  · simp only [Base.mint]
    rw [getBalance_set_other _ _ _ _ hx]
    exact h x

theorem batch_loop_preserves_nonneg (recips : List (Addr × Int)) :
    ∀ s s2, MyStablecoin.batch_mint_loop s recips = .ok s2 →
      (∀ x, 0 ≤ getBalance s.balances x) → ∀ x, 0 ≤ getBalance s2.balances x := by
  induction recips with
  | nil =>
    intro s s2 h hinv
    simp only [MyStablecoin.batch_mint_loop, Except.ok.injEq] at h
    subst h
    exact hinv
  | cons p rest ih =>
    obtain ⟨a, v⟩ := p
    intro s s2 h hinv
    unfold MyStablecoin.batch_mint_loop at h
    cases hv : validate_mint_comprehensive s a v with
    | error e => rw [hv] at h; simp at h
    | ok u =>
      obtain ⟨⟩ := u
      rw [hv] at h
      have hmin : MIN_AMOUNT ≤ v := ((validate_mint_comprehensive_ok_iff s a v).mp hv).2.2.1
      have hv0 : (0 : Int) ≤ v := by
        have h5 : (5 : Int) ≤ v := by simpa [MIN_AMOUNT] using hmin
        omega
      exact ih _ _ h (base_mint_preserves_nonneg s a v hv0 hinv)

theorem double_set_nonneg (bs : List (Addr × Int)) (fr toA : Addr) (amt : Int)
    (hamt : 0 ≤ amt) (hbal : amt ≤ getBalance bs fr)
    (h : ∀ x, 0 ≤ getBalance bs x) :
    ∀ x, 0 ≤ getBalance
      (setBalance (setBalance bs fr (getBalance bs fr - amt)) toA
        (getBalance (setBalance bs fr (getBalance bs fr - amt)) toA + amt)) x := by
  intro x
  have h1 : ∀ y, 0 ≤ getBalance (setBalance bs fr (getBalance bs fr - amt)) y := by
    intro y
    by_cases hy : y = fr
    · subst hy
      rw [getBalance_set_self]
      omega
    · rw [getBalance_set_other _ _ _ _ hy]
      exact h y
  by_cases hx : x = toA
  · subst hx
    rw [getBalance_set_self]
    have := h1 x
    omega
  · rw [getBalance_set_other _ _ _ _ hx]
    exact h1 x

theorem single_set_nonneg (bs : List (Addr × Int)) (fr : Addr) (amt : Int)
    (hbal : amt ≤ getBalance bs fr) (h : ∀ x, 0 ≤ getBalance bs x) :
    ∀ x, 0 ≤ getBalance (setBalance bs fr (getBalance bs fr - amt)) x := by
  intro x
  by_cases hx : x = fr
  · subst hx
    rw [getBalance_set_self]
    omega
  · rw [getBalance_set_other _ _ _ _ hx]
    exact h x

theorem dispatch_ok_preserves_nonneg (s : CState) (c : Call) (s2 : CState)
    (h : dispatch s c = .ok s2) (hinv : ∀ x, 0 ≤ getBalance s.balances x) :
    ∀ x, 0 ≤ getBalance s2.balances x := by
  cases c with
  | mint auth caller toA amt =>
    obtain ⟨-, -, -, hv, hs⟩ := mint_ok_elim _ _ _ _ _ _ h
    subst hs
    have hmin : MIN_AMOUNT ≤ amt := ((validate_mint_comprehensive_ok_iff s toA amt).mp hv).2.2.1
    have hv0 : (0 : Int) ≤ amt := by
      have h5 : (5 : Int) ≤ amt := by simpa [MIN_AMOUNT] using hmin
      omega
    exact base_mint_preserves_nonneg s toA amt hv0 hinv
  | batchMint auth caller recips =>
    obtain ⟨-, -, -, hl⟩ := batch_mint_ok_elim _ _ _ _ _ h
    exact batch_loop_preserves_nonneg recips s s2 hl hinv
  | transfer auth fr toA amt =>
    obtain ⟨-, hv, -, hs⟩ := transfer_ok_elim _ _ _ _ _ _ h
    subst hs
    have hc := (validate_transfer_comprehensive_ok_iff s fr toA amt).mp hv
    have hv0 : (0 : Int) ≤ amt := by
      have h5 : (5 : Int) ≤ amt := by simpa [MIN_AMOUNT] using hc.2.2.2.2.1
      omega
    exact double_set_nonneg s.balances fr toA amt hv0 hc.2.2.2.2.2.2 hinv
  | transferFrom auth spender fr toA amt =>
    obtain ⟨-, hv, -, hs⟩ := transfer_from_ok_elim _ _ _ _ _ _ _ h
    subst hs
    have hc := (validate_transfer_comprehensive_ok_iff s fr toA amt).mp hv
    have hv0 : (0 : Int) ≤ amt := by
      have h5 : (5 : Int) ≤ amt := by simpa [MIN_AMOUNT] using hc.2.2.2.2.1
      omega
    exact double_set_nonneg s.balances fr toA amt hv0 hc.2.2.2.2.2.2 hinv
  | burn auth fr amt =>
    obtain ⟨-, hv, -, hs⟩ := burn_ok_elim _ _ _ _ _ h
    subst hs
    have hc := (validate_burn_comprehensive_ok_iff s fr amt).mp hv
    exact single_set_nonneg s.balances fr amt hc.2.2.2.2 hinv
  | burnFrom auth spender fr amt =>
    obtain ⟨-, hv, -, hs⟩ := burn_from_ok_elim _ _ _ _ _ _ h
    subst hs
    have hc := (validate_burn_comprehensive_ok_iff s fr amt).mp hv
    exact single_set_nonneg s.balances fr amt hc.2.2.2.2 hinv
  | approve auth fr spender amt exp =>
    obtain ⟨-, -, hs⟩ := approve_ok_elim _ _ _ _ _ _ _ h
    subst hs
    exact hinv
  | pause auth caller =>
    have hs := pause_ok_elim _ _ _ _ h
    subst hs
    exact hinv
  | unpause auth caller =>
    have hs := unpause_ok_elim _ _ _ _ h
    subst hs
    exact hinv

theorem reachable_balances_nonneg (s : CState) (h : Reachable s) :
    ∀ x, 0 ≤ getBalance s.balances x := by
  induction h with
  | init a p u m =>
    intro x
    simp [initState, init_contract, init_access_control, init_token, emptyState, getBalance]
  | step s c hs ih =>
    cases hd : dispatch s c with
    | error e =>
      rw [applyCall_eq_of_error s c e hd]
      exact ih
    | ok s2 =>
      rw [applyCall_eq_of_ok s c s2 hd]
      exact dispatch_ok_preserves_nonneg s c s2 hd ih

/-! Error propagation through the entry points. -/

theorem mint_error_of_validate (s : CState) (auth : List Addr) (caller toA : Addr)
    (amt : Int) (e : StablecoinError) (hp : s.paused = false) (ha : caller ∈ auth)
    (hm : s.minter = some caller) (hv : validate_mint_comprehensive s toA amt = .error e) :
    MyStablecoin.mint s auth caller toA amt = .error (.contractErr e) := by
  unfold MyStablecoin.mint
  rw [if_neg (by simp [hp]), if_neg (not_not_intro ha), if_neg (not_not_intro hm), hv]

theorem transfer_error_of_validate (s : CState) (auth : List Addr) (fr toA : Addr)
    (amt : Int) (e : StablecoinError) (hp : s.paused = false)
    (hv : validate_transfer_comprehensive s fr toA amt = .error e) :
    MyStablecoin.transfer s auth fr toA amt = .error (.contractErr e) := by
  unfold MyStablecoin.transfer
  rw [if_neg (by simp [hp]), hv]

theorem transfer_from_error_of_validate (s : CState) (auth : List Addr)
    (spender fr toA : Addr) (amt : Int) (e : StablecoinError) (hp : s.paused = false)
    (hv : validate_transfer_comprehensive s fr toA amt = .error e) :
    MyStablecoin.transfer_from s auth spender fr toA amt = .error (.contractErr e) := by
  unfold MyStablecoin.transfer_from
  rw [if_neg (by simp [hp]), hv]

theorem burn_error_of_validate (s : CState) (auth : List Addr) (fr : Addr)
    (amt : Int) (e : StablecoinError) (hp : s.paused = false)
    (hv : validate_burn_comprehensive s fr amt = .error e) :
    MyStablecoin.burn s auth fr amt = .error (.contractErr e) := by
  unfold MyStablecoin.burn
  rw [if_neg (by simp [hp]), hv]

theorem burn_from_error_of_validate (s : CState) (auth : List Addr) (spender fr : Addr)
    (amt : Int) (e : StablecoinError) (hp : s.paused = false)
    (hv : validate_burn_comprehensive s fr amt = .error e) :
    MyStablecoin.burn_from s auth spender fr amt = .error (.contractErr e) := by
  unfold MyStablecoin.burn_from
  rw [if_neg (by simp [hp]), hv]

/-! Validation pipeline error results under specific inputs. -/

theorem vmint_err_below (s : CState) (toA : Addr) (amt : Int) (hn : s.name ≠ "")
    (ht : toA ≠ "") (h : amt < MIN_AMOUNT) :
    validate_mint_comprehensive s toA amt = .error .InvalidAmount := by
  unfold validate_mint_comprehensive validate_contract_initialized
    validate_address_comprehensive validate_address validate_not_self_address
    validate_amount_range
  simp [hn, ht, h]

theorem vmint_err_above (s : CState) (toA : Addr) (amt : Int) (hn : s.name ≠ "")
    (ht : toA ≠ "") (h : amt > MAX_SINGLE_OPERATION) :
    validate_mint_comprehensive s toA amt = .error .AmountTooLarge := by
  have hlow : ¬amt < MIN_AMOUNT := by
    simp only [MIN_AMOUNT, MAX_SINGLE_OPERATION] at h ⊢
    omega
  unfold validate_mint_comprehensive validate_contract_initialized
    validate_address_comprehensive validate_address validate_not_self_address
    validate_amount_range ENABLE_OPERATION_LIMITS
  simp [hn, ht, hlow, h]

theorem vsl_err_exceeds (s : CState) (amt : Int)
    (hr1 : -(2 ^ 127) ≤ s.total_supply + amt) (hr2 : s.total_supply + amt ≤ 2 ^ 127 - 1)
    (hover : s.total_supply + amt > MAX_SUPPLY) :
    validate_supply_limits s amt = .error .ExceedsMaxSupply := by
  unfold validate_supply_limits i128_checked_add ENABLE_SUPPLY_LIMITS
  rw [if_neg (not_not_intro rfl), if_pos ⟨hr1, hr2⟩]
  exact if_pos hover

theorem vsl_err_overflow (s : CState) (amt : Int)
    (hof : s.total_supply + amt > 2 ^ 127 - 1 ∨ s.total_supply + amt < -(2 ^ 127)) :
    validate_supply_limits s amt = .error .AmountTooLarge := by
  have hr : ¬(-(2 ^ 127) ≤ s.total_supply + amt ∧ s.total_supply + amt ≤ 2 ^ 127 - 1) := by
    omega
  unfold validate_supply_limits i128_checked_add ENABLE_SUPPLY_LIMITS
  rw [if_neg (not_not_intro rfl), if_neg hr]

theorem vmint_err_supply (s : CState) (toA : Addr) (amt : Int) (hn : s.name ≠ "")
    (ht : toA ≠ "") (hlo : MIN_AMOUNT ≤ amt) (hhi : amt ≤ MAX_SINGLE_OPERATION)
    (hr1 : -(2 ^ 127) ≤ s.total_supply + amt) (hr2 : s.total_supply + amt ≤ 2 ^ 127 - 1)
    (hover : s.total_supply + amt > MAX_SUPPLY) :
    validate_mint_comprehensive s toA amt = .error .ExceedsMaxSupply := by
  unfold validate_mint_comprehensive
  rw [(validate_contract_initialized_ok_iff s).mpr hn,
    (validate_address_comprehensive_ok_iff toA).mpr ht,
    (validate_amount_range_ok_iff amt).mpr ⟨hlo, hhi⟩]
  exact vsl_err_exceeds s amt hr1 hr2 hover

theorem vmint_err_overflow (s : CState) (toA : Addr) (amt : Int) (hn : s.name ≠ "")
    (ht : toA ≠ "") (hlo : MIN_AMOUNT ≤ amt) (hhi : amt ≤ MAX_SINGLE_OPERATION)
    (hof : s.total_supply + amt > 2 ^ 127 - 1 ∨ s.total_supply + amt < -(2 ^ 127)) :
    validate_mint_comprehensive s toA amt = .error .AmountTooLarge := by
  unfold validate_mint_comprehensive
  rw [(validate_contract_initialized_ok_iff s).mpr hn,
    (validate_address_comprehensive_ok_iff toA).mpr ht,
    (validate_amount_range_ok_iff amt).mpr ⟨hlo, hhi⟩]
  exact vsl_err_overflow s amt hof

theorem vtransfer_err_self (s : CState) (fr : Addr) (amt : Int) (hn : s.name ≠ "")
    (hf : fr ≠ "") :
    validate_transfer_comprehensive s fr fr amt = .error .SelfTransfer := by
  unfold validate_transfer_comprehensive validate_contract_initialized
    validate_address_comprehensive validate_address validate_not_self_address
    validate_transfer_addresses
  simp [hn, hf]

theorem vtransfer_err_below (s : CState) (fr toA : Addr) (amt : Int) (hn : s.name ≠ "")
    (hf : fr ≠ "") (ht : toA ≠ "") (hne : fr ≠ toA) (h : amt < MIN_AMOUNT) :
    validate_transfer_comprehensive s fr toA amt = .error .InvalidAmount := by
  unfold validate_transfer_comprehensive validate_contract_initialized
    validate_address_comprehensive validate_address validate_not_self_address
    validate_transfer_addresses validate_amount_range
  simp [hn, hf, ht, hne, h]

theorem vtransfer_err_above (s : CState) (fr toA : Addr) (amt : Int) (hn : s.name ≠ "")
    (hf : fr ≠ "") (ht : toA ≠ "") (hne : fr ≠ toA) (h : amt > MAX_SINGLE_OPERATION) :
    validate_transfer_comprehensive s fr toA amt = .error .AmountTooLarge := by
  have hlow : ¬amt < MIN_AMOUNT := by
    simp only [MIN_AMOUNT, MAX_SINGLE_OPERATION] at h ⊢
    omega
  unfold validate_transfer_comprehensive validate_contract_initialized
    validate_address_comprehensive validate_address validate_not_self_address
    validate_transfer_addresses validate_amount_range ENABLE_OPERATION_LIMITS
  simp [hn, hf, ht, hne, hlow, h]

theorem vburn_err_below (s : CState) (fr : Addr) (amt : Int) (hn : s.name ≠ "")
    (hf : fr ≠ "") (h : amt < MIN_AMOUNT) :
    validate_burn_comprehensive s fr amt = .error .InvalidAmount := by
  unfold validate_burn_comprehensive validate_contract_initialized
    validate_address_comprehensive validate_address validate_not_self_address
    validate_amount_range
  simp [hn, hf, h]

theorem vburn_err_above (s : CState) (fr : Addr) (amt : Int) (hn : s.name ≠ "")
    (hf : fr ≠ "") (h : amt > MAX_SINGLE_OPERATION) :
    validate_burn_comprehensive s fr amt = .error .AmountTooLarge := by
  have hlow : ¬amt < MIN_AMOUNT := by
    simp only [MIN_AMOUNT, MAX_SINGLE_OPERATION] at h ⊢
    omega
  unfold validate_burn_comprehensive validate_contract_initialized
    validate_address_comprehensive validate_address validate_not_self_address
    validate_amount_range ENABLE_OPERATION_LIMITS
  simp [hn, hf, hlow, h]

/-! Claim theorems. -/

/-- Claim C3: in every state reachable from the initialized state by any
sequence of entry-point calls, total_supply equals the sum of all account
balances; each successful mint (resp. burn) updates supply and the
affected balance together by the same amount, and a successful transfer
leaves the supply unchanged. -/
theorem c3_supply_equals_sum_of_balances :
    (∀ s, Reachable s → MyStablecoin.total_supply s = sumBal s.balances) ∧
    (∀ s auth caller toA amt s2, MyStablecoin.mint s auth caller toA amt = .ok s2 →
      MyStablecoin.total_supply s2 = MyStablecoin.total_supply s + amt ∧
      MyStablecoin.balance s2 toA = MyStablecoin.balance s toA + amt) ∧
    (∀ s auth fr amt s2, MyStablecoin.burn s auth fr amt = .ok s2 →
      MyStablecoin.total_supply s2 = MyStablecoin.total_supply s - amt ∧
      MyStablecoin.balance s2 fr = MyStablecoin.balance s fr - amt) ∧
    (∀ s auth fr toA amt s2, MyStablecoin.transfer s auth fr toA amt = .ok s2 →
      MyStablecoin.total_supply s2 = MyStablecoin.total_supply s) := by
  refine ⟨fun s h => reachable_supply_sum s h, ?_, ?_, ?_⟩
  · intro s auth caller toA amt s2 h
    obtain ⟨-, -, -, -, hs⟩ := mint_ok_elim _ _ _ _ _ _ h
    subst hs
    constructor
    · simp [MyStablecoin.total_supply, Base.mint]
    · simp only [MyStablecoin.balance, Base.mint]
      rw [getBalance_set_self]
  · intro s auth fr amt s2 h
    obtain ⟨-, -, -, hs⟩ := burn_ok_elim _ _ _ _ _ h
    subst hs
    constructor
    · simp [MyStablecoin.total_supply]
    · simp only [MyStablecoin.balance]
      rw [getBalance_set_self]
  · intro s auth fr toA amt s2 h
    obtain ⟨-, -, -, hs⟩ := transfer_ok_elim _ _ _ _ _ _ h
    subst hs
    simp [MyStablecoin.total_supply]

set_option maxRecDepth 100000 in
/-- Witness for C3: the invariant holds in the concrete state after one
mint of 1000 to u1, and that mint raised the supply by exactly 1000. -/
theorem c3_witness :
    MyStablecoin.total_supply
        (applyCall (initState "adm" "pau" "upg" "mnt") (Call.mint ["mnt"] "mnt" "u1" 1000)) =
      sumBal (applyCall (initState "adm" "pau" "upg" "mnt")
        (Call.mint ["mnt"] "mnt" "u1" 1000)).balances ∧
    MyStablecoin.total_supply (Base.mint (initState "adm" "pau" "upg" "mnt") "u1" 1000) =
      MyStablecoin.total_supply (initState "adm" "pau" "upg" "mnt") + 1000 :=
  ⟨c3_supply_equals_sum_of_balances.1 _
      (Reachable.step _ _ (Reachable.init "adm" "pau" "upg" "mnt")),
   (c3_supply_equals_sum_of_balances.2.1 _ ["mnt"] "mnt" "u1" 1000 _ (by rfl)).1⟩

/-- Claim C4: in every reachable state every account balance is
non-negative, and each debiting operation (transfer, transfer_from, burn,
burn_from) only succeeds when the source balance covers the amount. -/
theorem c4_balances_nonnegative :
    (∀ s, Reachable s → ∀ a, 0 ≤ MyStablecoin.balance s a) ∧
    (∀ s auth fr toA amt s2, MyStablecoin.transfer s auth fr toA amt = .ok s2 →
      amt ≤ MyStablecoin.balance s fr) ∧
    (∀ s auth spender fr toA amt s2,
      MyStablecoin.transfer_from s auth spender fr toA amt = .ok s2 →
      amt ≤ MyStablecoin.balance s fr) ∧
    (∀ s auth fr amt s2, MyStablecoin.burn s auth fr amt = .ok s2 →
      amt ≤ MyStablecoin.balance s fr) ∧
    (∀ s auth spender fr amt s2, MyStablecoin.burn_from s auth spender fr amt = .ok s2 →
      amt ≤ MyStablecoin.balance s fr) := by
  refine ⟨fun s h a => reachable_balances_nonneg s h a, ?_, ?_, ?_, ?_⟩
  · intro s auth fr toA amt s2 h
    obtain ⟨-, hv, -, -⟩ := transfer_ok_elim _ _ _ _ _ _ h
    exact ((validate_transfer_comprehensive_ok_iff s fr toA amt).mp hv).2.2.2.2.2.2
  · intro s auth spender fr toA amt s2 h
    obtain ⟨-, hv, -, -⟩ := transfer_from_ok_elim _ _ _ _ _ _ _ h
    exact ((validate_transfer_comprehensive_ok_iff s fr toA amt).mp hv).2.2.2.2.2.2
  · intro s auth fr amt s2 h
    obtain ⟨-, hv, -, -⟩ := burn_ok_elim _ _ _ _ _ h
    exact ((validate_burn_comprehensive_ok_iff s fr amt).mp hv).2.2.2.2
  · intro s auth spender fr amt s2 h
    obtain ⟨-, hv, -, -⟩ := burn_from_ok_elim _ _ _ _ _ _ h
    exact ((validate_burn_comprehensive_ok_iff s fr amt).mp hv).2.2.2.2

set_option maxRecDepth 100000 in
/-- Witness for C4: non-negativity of a concrete balance in the concrete
state after minting 1000 to u1 and burning 100 from u1. -/
theorem c4_witness :
    0 ≤ MyStablecoin.balance
      (applyCall (applyCall (initState "adm" "pau" "upg" "mnt")
          (Call.mint ["mnt"] "mnt" "u1" 1000))
        (Call.burn ["u1"] "u1" 100)) "u1" :=
  c4_balances_nonnegative.1 _
    (Reachable.step _ _ (Reachable.step _ _ (Reachable.init "adm" "pau" "upg" "mnt")))
    "u1"

/-- Claim C9: a successful transfer(from, to, amount) debits from by
exactly amount, credits to by exactly amount, leaves total_supply
unchanged, and leaves every other balance and every allowance
unchanged. -/
theorem c9_transfer_effects :
    ∀ s auth fr toA amt s2, MyStablecoin.transfer s auth fr toA amt = .ok s2 →
      MyStablecoin.balance s2 fr = MyStablecoin.balance s fr - amt ∧
      MyStablecoin.balance s2 toA = MyStablecoin.balance s toA + amt ∧
      MyStablecoin.total_supply s2 = MyStablecoin.total_supply s ∧
      (∀ a, a ≠ fr → a ≠ toA → MyStablecoin.balance s2 a = MyStablecoin.balance s a) ∧
      (∀ o sp, MyStablecoin.allowance s2 o sp = MyStablecoin.allowance s o sp) := by
  intro s auth fr toA amt s2 h
  obtain ⟨-, hv, -, hs⟩ := transfer_ok_elim _ _ _ _ _ _ h
  have hft : fr ≠ toA := ((validate_transfer_comprehensive_ok_iff s fr toA amt).mp hv).2.2.2.1
  subst hs
  refine ⟨?_, ?_, ?_, ?_, ?_⟩
  · simp only [MyStablecoin.balance]
    rw [getBalance_set_other _ _ _ _ hft, getBalance_set_self]
  · simp only [MyStablecoin.balance]
    rw [getBalance_set_self, getBalance_set_other _ _ _ _ (Ne.symm hft)]
  · simp [MyStablecoin.total_supply]
  · intro a ha1 ha2
    simp only [MyStablecoin.balance]
    rw [getBalance_set_other _ _ _ _ ha2, getBalance_set_other _ _ _ _ ha1]
  · intro o sp
    simp [MyStablecoin.allowance]

set_option maxRecDepth 100000 in
/-- Witness for C9: the concrete transfer of 500 from u1 to u2 after a
mint of 1000 to u1 debits and credits by exactly 500. -/
theorem c9_witness :
    MyStablecoin.balance
        (applyCall (applyCall (initState "adm" "pau" "upg" "mnt")
            (Call.mint ["mnt"] "mnt" "u1" 1000))
          (Call.transfer ["u1"] "u1" "u2" 500)) "u1" =
      MyStablecoin.balance (applyCall (initState "adm" "pau" "upg" "mnt")
        (Call.mint ["mnt"] "mnt" "u1" 1000)) "u1" - 500 :=
  (c9_transfer_effects _ ["u1"] "u1" "u2" 500 _ (by rfl)).1

/-- Claim C10: approve performs only the pause check and no validation
pipeline stage: its only failure modes are the pause gate and the host
authentication of the owner, and with those satisfied it records the
allowance for any amount (also below MIN_AMOUNT or above
MAX_SINGLE_OPERATION) and in any state (also with empty, uninitialized
token metadata). -/
theorem c10_approve_skips_validation :
    ∀ s (auth : List Addr) (fr spender : Addr) (amt : Int) (exp : Nat),
      (∀ e, MyStablecoin.approve s auth fr spender amt exp = .error e →
        e = .contractErr .Paused ∨ e = .authFail) ∧
      (s.paused = false → fr ∈ auth →
        MyStablecoin.approve s auth fr spender amt exp =
          .ok { s with allowances := (setAllow s.allowances (fr, spender) (amt, exp)) } ∧
        MyStablecoin.allowance
          { s with allowances := (setAllow s.allowances (fr, spender) (amt, exp)) }
          fr spender = amt) := by
  intro s auth fr spender amt exp
  constructor
  · intro e he
    unfold MyStablecoin.approve Base.approve at he
    by_cases hp : s.paused
    · rw [if_pos (by simpa using hp)] at he
      simp only [Except.error.injEq] at he
      exact Or.inl he.symm
    · rw [if_neg (by simpa using hp)] at he
      by_cases ha : fr ∈ auth
      · rw [if_neg (not_not_intro ha)] at he
        simp at he
      · rw [if_pos ha] at he
        simp only [Except.error.injEq] at he
        exact Or.inr he.symm
  · intro hp ha
    constructor
    · unfold MyStablecoin.approve Base.approve
      rw [if_neg (by simp [hp]), if_neg (not_not_intro ha)]
    · simp only [MyStablecoin.allowance]
      rw [getAllow_set_self]

/-- Witness for C10: in a concrete uninitialized, unpaused state, approve
of the below-minimum amount 3 succeeds and records allowance 3. -/
theorem c10_witness :
    MyStablecoin.approve emptyState ["own"] "own" "sp" 3 50 =
      .ok { emptyState with allowances := (setAllow emptyState.allowances ("own", "sp") (3, 50)) } ∧
    MyStablecoin.allowance
      { emptyState with allowances := (setAllow emptyState.allowances ("own", "sp") (3, 50)) }
      "own" "sp" = 3 :=
  (c10_approve_skips_validation emptyState ["own"] "own" "sp" 3 50).2 rfl
    (by decide)

/-- Claim C7: a transfer or transfer_from with from equal to to fails
with SelfTransfer regardless of the amount and of the balance of from
(the self-transfer check precedes the amount-range and balance checks),
leaving the state unchanged. -/
theorem c7_self_transfer_rejected :
    ∀ s (auth : List Addr) (spender fr : Addr) (amt : Int),
      s.paused = false → s.name ≠ "" → fr ≠ "" →
      MyStablecoin.transfer s auth fr fr amt = .error (.contractErr .SelfTransfer) ∧
      MyStablecoin.transfer_from s auth spender fr fr amt =
        .error (.contractErr .SelfTransfer) ∧
      applyCall s (Call.transfer auth fr fr amt) = s ∧
      applyCall s (Call.transferFrom auth spender fr fr amt) = s := by
  intro s auth spender fr amt hp hn hf
  have hv := vtransfer_err_self s fr amt hn hf
  have h1 := transfer_error_of_validate s auth fr fr amt .SelfTransfer hp hv
  have h2 := transfer_from_error_of_validate s auth spender fr fr amt .SelfTransfer hp hv
  exact ⟨h1, h2, applyCall_eq_of_error _ _ _ h1, applyCall_eq_of_error _ _ _ h2⟩

set_option maxRecDepth 100000 in
/-- Witness for C7: the concrete self-transfer of 500 by u1, who holds
1000, fails with SelfTransfer and changes nothing. -/
theorem c7_witness :
    MyStablecoin.transfer
        (applyCall (initState "adm" "pau" "upg" "mnt") (Call.mint ["mnt"] "mnt" "u1" 1000))
        ["u1"] "u1" "u1" 500 = .error (.contractErr .SelfTransfer) ∧
    applyCall (applyCall (initState "adm" "pau" "upg" "mnt")
        (Call.mint ["mnt"] "mnt" "u1" 1000)) (Call.transfer ["u1"] "u1" "u1" 500) =
      applyCall (initState "adm" "pau" "upg" "mnt") (Call.mint ["mnt"] "mnt" "u1" 1000) := by
  have h := c7_self_transfer_rejected
    (applyCall (initState "adm" "pau" "upg" "mnt") (Call.mint ["mnt"] "mnt" "u1" 1000))
    ["u1"] "u1" "u1" 500 (by rfl) (by decide) (by decide)
  exact ⟨h.1, h.2.2.1⟩

theorem batch_loop_append_error (pre : List (Addr × Int)) :
    ∀ s s1 (rest : List (Addr × Int)) (account : Addr) (amount : Int) (e : StablecoinError),
      MyStablecoin.batch_mint_loop s pre = .ok s1 →
      validate_mint_comprehensive s1 account amount = .error e →
      MyStablecoin.batch_mint_loop s (pre ++ (account, amount) :: rest) =
        .error (.contractErr e) := by
  induction pre with
  | nil =>
    intro s s1 rest a v e h hv
    simp only [MyStablecoin.batch_mint_loop, Except.ok.injEq] at h
    subst h
    simp only [List.nil_append]
    unfold MyStablecoin.batch_mint_loop
    rw [hv]
  | cons p pre ih =>
    obtain ⟨b, w⟩ := p
    intro s s1 rest a v e h hv
    unfold MyStablecoin.batch_mint_loop at h
    simp only [List.cons_append]
    unfold MyStablecoin.batch_mint_loop
    cases hvb : validate_mint_comprehensive s b w with
    | error e2 => rw [hvb] at h; simp at h
    | ok u =>
      obtain ⟨⟩ := u
      rw [hvb] at h
      exact ih _ _ rest a v e h hv

/-- Claim C1: batch_mint is all-or-nothing: for every starting state and
recipient list, when the pairs before position k all validate and mint in
order but validation of the k-th pair fails with error e, the whole
batch_mint call returns that first error and the post-call state equals
the pre-call state, retaining no balance or supply change from the
earlier pairs. -/
theorem c1_batch_mint_atomicity :
    ∀ s (auth : List Addr) (caller : Addr) (pre rest : List (Addr × Int))
      (account : Addr) (amount : Int) (s1 : CState) (e : StablecoinError),
      s.paused = false → caller ∈ auth → s.minter = some caller →
      MyStablecoin.batch_mint_loop s pre = .ok s1 →
      validate_mint_comprehensive s1 account amount = .error e →
      MyStablecoin.batch_mint s auth caller (pre ++ (account, amount) :: rest) =
        .error (.contractErr e) ∧
      applyCall s (Call.batchMint auth caller (pre ++ (account, amount) :: rest)) = s := by
  intro s auth caller pre rest account amount s1 e hp ha hm hloop hv
  have herr := batch_loop_append_error pre s s1 rest account amount e hloop hv
  have hbm : MyStablecoin.batch_mint s auth caller (pre ++ (account, amount) :: rest) =
      .error (.contractErr e) := by
    unfold MyStablecoin.batch_mint
    rw [if_neg (by simp [hp]), if_neg (not_not_intro ha), if_neg (not_not_intro hm)]
    exact herr
  exact ⟨hbm, applyCall_eq_of_error _ _ _ hbm⟩

set_option maxRecDepth 400000 in
/-- Witness for C1: the concrete batch [(u1, 10), (u2, 3)] fails on the
second pair (3 is below MIN_AMOUNT) with InvalidAmount after the first
pair validated and minted, and the state is unchanged. -/
theorem c1_witness :
    MyStablecoin.batch_mint (initState "adm" "pau" "upg" "mnt") ["mnt"] "mnt"
        ([("u1", 10)] ++ ("u2", 3) :: []) = .error (.contractErr .InvalidAmount) ∧
    applyCall (initState "adm" "pau" "upg" "mnt")
        (Call.batchMint ["mnt"] "mnt" ([("u1", 10)] ++ ("u2", 3) :: [])) =
      initState "adm" "pau" "upg" "mnt" :=
  c1_batch_mint_atomicity (initState "adm" "pau" "upg" "mnt") ["mnt"] "mnt"
    [("u1", 10)] [] "u2" 3 (Base.mint (initState "adm" "pau" "upg" "mnt") "u1" 10)
    .InvalidAmount rfl (by decide) rfl (by rfl) (by rfl)

/-- Claim C5: a mint whose pause, authentication, role, address and
amount-range stages all pass fails with ExceedsMaxSupply when the new
supply would exceed MAX_SUPPLY (1,000,000,000) without overflowing i128,
and with AmountTooLarge when the addition total_supply + amount
overflows i128; in both cases the state is unchanged. -/
theorem c5_max_supply_enforced :
    ∀ s (auth : List Addr) (caller toA : Addr) (amt : Int),
      s.paused = false → caller ∈ auth → s.minter = some caller →
      s.name ≠ "" → toA ≠ "" → MIN_AMOUNT ≤ amt → amt ≤ MAX_SINGLE_OPERATION →
      ((-(2 ^ 127) ≤ s.total_supply + amt → s.total_supply + amt ≤ 2 ^ 127 - 1 →
        s.total_supply + amt > MAX_SUPPLY →
        MyStablecoin.mint s auth caller toA amt = .error (.contractErr .ExceedsMaxSupply) ∧
        applyCall s (Call.mint auth caller toA amt) = s) ∧
       (s.total_supply + amt > 2 ^ 127 - 1 ∨ s.total_supply + amt < -(2 ^ 127) →
        MyStablecoin.mint s auth caller toA amt = .error (.contractErr .AmountTooLarge) ∧
        applyCall s (Call.mint auth caller toA amt) = s)) := by
  intro s auth caller toA amt hp ha hm hn ht hlo hhi
  constructor
  · intro hr1 hr2 hover
    have hv := vmint_err_supply s toA amt hn ht hlo hhi hr1 hr2 hover
    have he := mint_error_of_validate s auth caller toA amt .ExceedsMaxSupply hp ha hm hv
    exact ⟨he, applyCall_eq_of_error _ _ _ he⟩
  · intro hof
    have hv := vmint_err_overflow s toA amt hn ht hlo hhi hof
    have he := mint_error_of_validate s auth caller toA amt .AmountTooLarge hp ha hm hv
    exact ⟨he, applyCall_eq_of_error _ _ _ he⟩

set_option maxRecDepth 400000 in
/-- Witness for C5: with supply 999,999,990, minting 100 exceeds
MAX_SUPPLY and fails with ExceedsMaxSupply; with supply 2^127 - 1, the
checked addition overflows and the same mint fails with AmountTooLarge. -/
theorem c5_witness :
    MyStablecoin.mint
        { initState "adm" "pau" "upg" "mnt" with total_supply := 999999990 }
        ["mnt"] "mnt" "u1" 100 = .error (.contractErr .ExceedsMaxSupply) ∧
    MyStablecoin.mint
        { initState "adm" "pau" "upg" "mnt" with total_supply := 2 ^ 127 - 1 }
        ["mnt"] "mnt" "u1" 100 = .error (.contractErr .AmountTooLarge) :=
  ⟨((c5_max_supply_enforced
      { initState "adm" "pau" "upg" "mnt" with total_supply := 999999990 }
      ["mnt"] "mnt" "u1" 100 rfl (by decide) rfl (by decide) (by decide)
      (by norm_num [MIN_AMOUNT]) (by norm_num [MAX_SINGLE_OPERATION])).1
      (by norm_num) (by norm_num) (by norm_num [MAX_SUPPLY])).1,
   ((c5_max_supply_enforced
      { initState "adm" "pau" "upg" "mnt" with total_supply := 2 ^ 127 - 1 }
      ["mnt"] "mnt" "u1" 100 rfl (by decide) rfl (by decide) (by decide)
      (by norm_num [MIN_AMOUNT]) (by norm_num [MAX_SINGLE_OPERATION])).2
      (by norm_num)).1⟩

/-- Claim C6: with the contract initialized and unpaused, non-empty
addresses, distinct transfer endpoints, and (for mint) an authenticated
minter, every amount below MIN_AMOUNT (5) makes mint, transfer,
transfer_from, burn and burn_from fail with InvalidAmount, and every
amount above MAX_SINGLE_OPERATION (100,000,000) makes them fail with
AmountTooLarge, in each case leaving the state unchanged. -/
theorem c6_amount_range_enforced :
    ∀ s (auth : List Addr) (caller spender fr toA : Addr) (amt : Int),
      s.paused = false → s.name ≠ "" →
      (amt < MIN_AMOUNT →
        ((caller ∈ auth → s.minter = some caller → toA ≠ "" →
          MyStablecoin.mint s auth caller toA amt = .error (.contractErr .InvalidAmount) ∧
          applyCall s (Call.mint auth caller toA amt) = s) ∧
         (fr ≠ "" → toA ≠ "" → fr ≠ toA →
          MyStablecoin.transfer s auth fr toA amt = .error (.contractErr .InvalidAmount) ∧
          MyStablecoin.transfer_from s auth spender fr toA amt =
            .error (.contractErr .InvalidAmount) ∧
          applyCall s (Call.transfer auth fr toA amt) = s ∧
          applyCall s (Call.transferFrom auth spender fr toA amt) = s) ∧
         (fr ≠ "" →
          MyStablecoin.burn s auth fr amt = .error (.contractErr .InvalidAmount) ∧
          MyStablecoin.burn_from s auth spender fr amt =
            .error (.contractErr .InvalidAmount) ∧
          applyCall s (Call.burn auth fr amt) = s ∧
          applyCall s (Call.burnFrom auth spender fr amt) = s))) ∧
      (amt > MAX_SINGLE_OPERATION →
        ((caller ∈ auth → s.minter = some caller → toA ≠ "" →
          MyStablecoin.mint s auth caller toA amt = .error (.contractErr .AmountTooLarge) ∧
          applyCall s (Call.mint auth caller toA amt) = s) ∧
         (fr ≠ "" → toA ≠ "" → fr ≠ toA →
          MyStablecoin.transfer s auth fr toA amt = .error (.contractErr .AmountTooLarge) ∧
          MyStablecoin.transfer_from s auth spender fr toA amt =
            .error (.contractErr .AmountTooLarge) ∧
          applyCall s (Call.transfer auth fr toA amt) = s ∧
          applyCall s (Call.transferFrom auth spender fr toA amt) = s) ∧
         (fr ≠ "" →
          MyStablecoin.burn s auth fr amt = .error (.contractErr .AmountTooLarge) ∧
          MyStablecoin.burn_from s auth spender fr amt =
            .error (.contractErr .AmountTooLarge) ∧
          applyCall s (Call.burn auth fr amt) = s ∧
          applyCall s (Call.burnFrom auth spender fr amt) = s))) := by
  intro s auth caller spender fr toA amt hp hn
  constructor
  · intro hamt
    refine ⟨?_, ?_, ?_⟩
    · intro ha hm ht
      have he := mint_error_of_validate s auth caller toA amt .InvalidAmount hp ha hm
        (vmint_err_below s toA amt hn ht hamt)
      exact ⟨he, applyCall_eq_of_error _ _ _ he⟩
    · intro hf ht hne
      have hv := vtransfer_err_below s fr toA amt hn hf ht hne hamt
      have h1 := transfer_error_of_validate s auth fr toA amt .InvalidAmount hp hv
      have h2 := transfer_from_error_of_validate s auth spender fr toA amt
        .InvalidAmount hp hv
      exact ⟨h1, h2, applyCall_eq_of_error _ _ _ h1, applyCall_eq_of_error _ _ _ h2⟩
    · intro hf
      have hv := vburn_err_below s fr amt hn hf hamt
      have h1 := burn_error_of_validate s auth fr amt .InvalidAmount hp hv
      have h2 := burn_from_error_of_validate s auth spender fr amt .InvalidAmount hp hv
      exact ⟨h1, h2, applyCall_eq_of_error _ _ _ h1, applyCall_eq_of_error _ _ _ h2⟩
  · intro hamt
    refine ⟨?_, ?_, ?_⟩
    · intro ha hm ht
      have he := mint_error_of_validate s auth caller toA amt .AmountTooLarge hp ha hm
        (vmint_err_above s toA amt hn ht hamt)
      exact ⟨he, applyCall_eq_of_error _ _ _ he⟩
    · intro hf ht hne
      have hv := vtransfer_err_above s fr toA amt hn hf ht hne hamt
      have h1 := transfer_error_of_validate s auth fr toA amt .AmountTooLarge hp hv
      have h2 := transfer_from_error_of_validate s auth spender fr toA amt
        .AmountTooLarge hp hv
      exact ⟨h1, h2, applyCall_eq_of_error _ _ _ h1, applyCall_eq_of_error _ _ _ h2⟩
    · intro hf
      have hv := vburn_err_above s fr amt hn hf hamt
      have h1 := burn_error_of_validate s auth fr amt .AmountTooLarge hp hv
      have h2 := burn_from_error_of_validate s auth spender fr amt .AmountTooLarge hp hv
      exact ⟨h1, h2, applyCall_eq_of_error _ _ _ h1, applyCall_eq_of_error _ _ _ h2⟩

set_option maxRecDepth 400000 in
/-- Witness for C6: the concrete mint of 3 (below the minimum) fails with
InvalidAmount and the concrete burn of 200,000,000 (above the single
operation cap) fails with AmountTooLarge. -/
theorem c6_witness :
    MyStablecoin.mint (initState "adm" "pau" "upg" "mnt") ["mnt"] "mnt" "u1" 3 =
      .error (.contractErr .InvalidAmount) ∧
    MyStablecoin.burn (initState "adm" "pau" "upg" "mnt") ["u1"] "u1" 200000000 =
      .error (.contractErr .AmountTooLarge) :=
  ⟨(((c6_amount_range_enforced (initState "adm" "pau" "upg" "mnt") ["mnt"] "mnt" "sp"
      "u1" "u1" 3 rfl (by decide)).1 (by norm_num [MIN_AMOUNT])).1 (by decide) rfl
      (by decide)).1,
   (((c6_amount_range_enforced (initState "adm" "pau" "upg" "mnt") ["u1"] "mnt" "sp"
      "u1" "u2" 200000000 rfl (by decide)).2
      (by norm_num [MAX_SINGLE_OPERATION])).2.2 (by decide)).1⟩

/-- Counterexample for C8: the claim counts is_paused among the read-only
queries that return the same values as when Active, but on a paused state
is_paused returns true while the identical Active state returns false. -/
theorem c8_counterexample :
    MyStablecoin.is_paused { initState "adm" "pau" "upg" "mnt" with paused := true } = true ∧
    MyStablecoin.is_paused (initState "adm" "pau" "upg" "mnt") = false ∧
    MyStablecoin.is_paused { initState "adm" "pau" "upg" "mnt" with paused := true } ≠
      MyStablecoin.is_paused (initState "adm" "pau" "upg" "mnt") :=
  ⟨rfl, rfl, by decide⟩

/-- Claim C8 (amended): while paused, every mutating entry point (mint,
batch_mint, transfer, transfer_from, burn, burn_from, approve) fails with
Paused and leaves the state unchanged, and all read-only queries still
succeed; every read-only query except is_paused returns the same value as
in the identical Active state, while is_paused reports the pause flag
itself. -/
theorem c8_pause_gate :
    ∀ s, s.paused = true →
      (∀ (auth : List Addr) (caller toA : Addr) (amt : Int),
        MyStablecoin.mint s auth caller toA amt = .error (.contractErr .Paused) ∧
        applyCall s (Call.mint auth caller toA amt) = s) ∧
      (∀ (auth : List Addr) (caller : Addr) (recips : List (Addr × Int)),
        MyStablecoin.batch_mint s auth caller recips = .error (.contractErr .Paused) ∧
        applyCall s (Call.batchMint auth caller recips) = s) ∧
      (∀ (auth : List Addr) (fr toA : Addr) (amt : Int),
        MyStablecoin.transfer s auth fr toA amt = .error (.contractErr .Paused) ∧
        applyCall s (Call.transfer auth fr toA amt) = s) ∧
      (∀ (auth : List Addr) (spender fr toA : Addr) (amt : Int),
        MyStablecoin.transfer_from s auth spender fr toA amt =
          .error (.contractErr .Paused) ∧
        applyCall s (Call.transferFrom auth spender fr toA amt) = s) ∧
      (∀ (auth : List Addr) (fr : Addr) (amt : Int),
        MyStablecoin.burn s auth fr amt = .error (.contractErr .Paused) ∧
        applyCall s (Call.burn auth fr amt) = s) ∧
      (∀ (auth : List Addr) (spender fr : Addr) (amt : Int),
        MyStablecoin.burn_from s auth spender fr amt = .error (.contractErr .Paused) ∧
        applyCall s (Call.burnFrom auth spender fr amt) = s) ∧
      (∀ (auth : List Addr) (fr spender : Addr) (amt : Int) (exp : Nat),
        MyStablecoin.approve s auth fr spender amt exp = .error (.contractErr .Paused) ∧
        applyCall s (Call.approve auth fr spender amt exp) = s) ∧
      (∀ a, MyStablecoin.balance s a = MyStablecoin.balance { s with paused := false } a) ∧
      (∀ o sp, MyStablecoin.allowance s o sp =
        MyStablecoin.allowance { s with paused := false } o sp) ∧
      MyStablecoin.total_supply s = MyStablecoin.total_supply { s with paused := false } ∧
      MyStablecoin.name s = MyStablecoin.name { s with paused := false } ∧
      MyStablecoin.symbol s = MyStablecoin.symbol { s with paused := false } ∧
      MyStablecoin.decimals s = MyStablecoin.decimals { s with paused := false } ∧
      (∀ a, MyStablecoin.has_role_minter s a =
        MyStablecoin.has_role_minter { s with paused := false } a) ∧
      (∀ a, MyStablecoin.has_role_pauser s a =
        MyStablecoin.has_role_pauser { s with paused := false } a) ∧
      (∀ a, MyStablecoin.has_role_upgrader s a =
        MyStablecoin.has_role_upgrader { s with paused := false } a) ∧
      MyStablecoin.get_admin s = MyStablecoin.get_admin { s with paused := false } ∧
      MyStablecoin.is_paused s = true := by
  intro s hp
  refine ⟨?_, ?_, ?_, ?_, ?_, ?_, ?_,
    fun a => rfl, fun o sp => rfl, rfl, rfl, rfl, rfl,
    fun a => rfl, fun a => rfl, fun a => rfl, rfl, hp⟩
  · intro auth caller toA amt
    have he : MyStablecoin.mint s auth caller toA amt = .error (.contractErr .Paused) := by
      unfold MyStablecoin.mint
      rw [if_pos hp]
    exact ⟨he, applyCall_eq_of_error _ _ _ he⟩
  · intro auth caller recips
    have he : MyStablecoin.batch_mint s auth caller recips =
        .error (.contractErr .Paused) := by
      unfold MyStablecoin.batch_mint
      rw [if_pos hp]
    exact ⟨he, applyCall_eq_of_error _ _ _ he⟩
  · intro auth fr toA amt
    have he : MyStablecoin.transfer s auth fr toA amt = .error (.contractErr .Paused) := by
      unfold MyStablecoin.transfer
      rw [if_pos hp]
    exact ⟨he, applyCall_eq_of_error _ _ _ he⟩
  · intro auth spender fr toA amt
    have he : MyStablecoin.transfer_from s auth spender fr toA amt =
        .error (.contractErr .Paused) := by
      unfold MyStablecoin.transfer_from
      rw [if_pos hp]
    exact ⟨he, applyCall_eq_of_error _ _ _ he⟩
  · intro auth fr amt
    have he : MyStablecoin.burn s auth fr amt = .error (.contractErr .Paused) := by
      unfold MyStablecoin.burn
      rw [if_pos hp]
    exact ⟨he, applyCall_eq_of_error _ _ _ he⟩
  · intro auth spender fr amt
    have he : MyStablecoin.burn_from s auth spender fr amt =
        .error (.contractErr .Paused) := by
      unfold MyStablecoin.burn_from
      rw [if_pos hp]
    exact ⟨he, applyCall_eq_of_error _ _ _ he⟩
  · intro auth fr spender amt exp
    have he : MyStablecoin.approve s auth fr spender amt exp =
        .error (.contractErr .Paused) := by
      unfold MyStablecoin.approve
      rw [if_pos hp]
    exact ⟨he, applyCall_eq_of_error _ _ _ he⟩

/-- Witness for C8: on the concrete paused state, mint fails with Paused
and is_paused still answers (with true). -/
theorem c8_witness :
    MyStablecoin.mint { initState "adm" "pau" "upg" "mnt" with paused := true }
        ["mnt"] "mnt" "u1" 100 = .error (.contractErr .Paused) ∧
    MyStablecoin.is_paused { initState "adm" "pau" "upg" "mnt" with paused := true } =
      true :=
  ⟨((c8_pause_gate { initState "adm" "pau" "upg" "mnt" with paused := true } rfl).1
      ["mnt"] "mnt" "u1" 100).1,
   (c8_pause_gate { initState "adm" "pau" "upg" "mnt" with paused := true }
      rfl).2.2.2.2.2.2.2.2.2.2.2.2.2.2.2.2.2⟩

/-- Counterexample for C2: the claim says caller authentication runs
before the pause-state check, so an unauthenticated caller could never
receive Paused; but on a concrete paused state with an empty
authenticated set, mint returns Paused, not an authentication failure:
the code checks the pause gate first. -/
theorem c2_counterexample :
    MyStablecoin.mint { initState "adm" "pau" "upg" "mnt" with paused := true }
        [] "mnt" "u1" 10 = .error (.contractErr .Paused) ∧
    (CallError.contractErr .Paused ≠ CallError.authFail) :=
  ⟨rfl, by decide⟩

/-- Claim C2 (amended): every mutating entry point checks the pause gate
first; mint and batch_mint then authenticate the caller, then check the
minter role, then run the validation pipeline, then mutate the ledger;
transfer, transfer_from, burn, burn_from run the validation pipeline
right after the pause gate and authenticate the acting account inside the
ledger operation; approve goes directly from the pause gate to the ledger
operation. Each stage short-circuits on first failure. -/
theorem c2_stage_order :
    ∀ s (auth : List Addr) (caller spender fr toA : Addr) (amt : Int) (exp : Nat)
      (recips : List (Addr × Int)),
      (s.paused = true →
        MyStablecoin.mint s auth caller toA amt = .error (.contractErr .Paused) ∧
        MyStablecoin.batch_mint s auth caller recips = .error (.contractErr .Paused) ∧
        MyStablecoin.transfer s auth fr toA amt = .error (.contractErr .Paused) ∧
        MyStablecoin.transfer_from s auth spender fr toA amt =
          .error (.contractErr .Paused) ∧
        MyStablecoin.burn s auth fr amt = .error (.contractErr .Paused) ∧
        MyStablecoin.burn_from s auth spender fr amt = .error (.contractErr .Paused) ∧
        MyStablecoin.approve s auth fr spender amt exp = .error (.contractErr .Paused)) ∧
      (s.paused = false → caller ∉ auth →
        MyStablecoin.mint s auth caller toA amt = .error .authFail ∧
        MyStablecoin.batch_mint s auth caller recips = .error .authFail) ∧
      (s.paused = false → caller ∈ auth → s.minter ≠ some caller →
        MyStablecoin.mint s auth caller toA amt = .error .roleFail ∧
        MyStablecoin.batch_mint s auth caller recips = .error .roleFail) ∧
      (s.paused = false → caller ∈ auth → s.minter = some caller →
        (∀ e, validate_mint_comprehensive s toA amt = .error e →
          MyStablecoin.mint s auth caller toA amt = .error (.contractErr e)) ∧
        (validate_mint_comprehensive s toA amt = .ok () →
          MyStablecoin.mint s auth caller toA amt = .ok (Base.mint s toA amt)) ∧
        MyStablecoin.batch_mint s auth caller recips =
          MyStablecoin.batch_mint_loop s recips) ∧
      (s.paused = false →
        (∀ e, validate_transfer_comprehensive s fr toA amt = .error e →
          MyStablecoin.transfer s auth fr toA amt = .error (.contractErr e) ∧
          MyStablecoin.transfer_from s auth spender fr toA amt =
            .error (.contractErr e)) ∧
        (validate_transfer_comprehensive s fr toA amt = .ok () →
          MyStablecoin.transfer s auth fr toA amt = Base.transfer s auth fr toA amt ∧
          MyStablecoin.transfer_from s auth spender fr toA amt =
            Base.transfer_from s auth spender fr toA amt) ∧
        (∀ e, validate_burn_comprehensive s fr amt = .error e →
          MyStablecoin.burn s auth fr amt = .error (.contractErr e) ∧
          MyStablecoin.burn_from s auth spender fr amt = .error (.contractErr e)) ∧
        (validate_burn_comprehensive s fr amt = .ok () →
          MyStablecoin.burn s auth fr amt = Base.burn s auth fr amt ∧
          MyStablecoin.burn_from s auth spender fr amt =
            Base.burn_from s auth spender fr amt) ∧
        MyStablecoin.approve s auth fr spender amt exp =
          Base.approve s auth fr spender amt exp) := by
  intro s auth caller spender fr toA amt exp recips
  refine ⟨?_, ?_, ?_, ?_, ?_⟩
  · intro hp
    refine ⟨?_, ?_, ?_, ?_, ?_, ?_, ?_⟩
    · unfold MyStablecoin.mint
      rw [if_pos hp]
    · unfold MyStablecoin.batch_mint
      rw [if_pos hp]
    · unfold MyStablecoin.transfer
      rw [if_pos hp]
    · unfold MyStablecoin.transfer_from
      rw [if_pos hp]
    · unfold MyStablecoin.burn
      rw [if_pos hp]
    · unfold MyStablecoin.burn_from
      rw [if_pos hp]
    · unfold MyStablecoin.approve
      rw [if_pos hp]
  · intro hp ha
    constructor
    · unfold MyStablecoin.mint
      rw [if_neg (by simp [hp]), if_pos ha]
    · unfold MyStablecoin.batch_mint
      rw [if_neg (by simp [hp]), if_pos ha]
  · intro hp ha hm
    constructor
    · unfold MyStablecoin.mint
      rw [if_neg (by simp [hp]), if_neg (not_not_intro ha), if_pos hm]
    · unfold MyStablecoin.batch_mint
      rw [if_neg (by simp [hp]), if_neg (not_not_intro ha), if_pos hm]
  · intro hp ha hm
    refine ⟨fun e hv => mint_error_of_validate s auth caller toA amt e hp ha hm hv,
      ?_, ?_⟩
    · intro hv
      unfold MyStablecoin.mint
      rw [if_neg (by simp [hp]), if_neg (not_not_intro ha), if_neg (not_not_intro hm),
        hv]
    · unfold MyStablecoin.batch_mint
      rw [if_neg (by simp [hp]), if_neg (not_not_intro ha), if_neg (not_not_intro hm)]
  · intro hp
    refine ⟨?_, ?_, ?_, ?_, ?_⟩
    · intro e hv
      exact ⟨transfer_error_of_validate s auth fr toA amt e hp hv,
        transfer_from_error_of_validate s auth spender fr toA amt e hp hv⟩
    · intro hv
      constructor
      · unfold MyStablecoin.transfer
        rw [if_neg (by simp [hp]), hv]
      · unfold MyStablecoin.transfer_from
        rw [if_neg (by simp [hp]), hv]
    · intro e hv
      exact ⟨burn_error_of_validate s auth fr amt e hp hv,
        burn_from_error_of_validate s auth spender fr amt e hp hv⟩
    · intro hv
      constructor
      · unfold MyStablecoin.burn
        rw [if_neg (by simp [hp]), hv]
      · unfold MyStablecoin.burn_from
        rw [if_neg (by simp [hp]), hv]
    · unfold MyStablecoin.approve
      rw [if_neg (by simp [hp])]

set_option maxRecDepth 400000 in
/-- Witness for C2 (amended): on the concrete paused state mint returns
Paused even with an empty authenticated set, and on the concrete unpaused
state an unauthenticated minter call fails with the authentication
error. -/
theorem c2_witness :
    MyStablecoin.mint { initState "adm" "pau" "upg" "mnt" with paused := true }
        [] "mnt" "u1" 10 = .error (.contractErr .Paused) ∧
    MyStablecoin.mint (initState "adm" "pau" "upg" "mnt") [] "mnt" "u1" 10 =
      .error .authFail :=
  ⟨((c2_stage_order { initState "adm" "pau" "upg" "mnt" with paused := true }
      [] "mnt" "sp" "u1" "u2" 10 0 []).1 rfl).1,
   ((c2_stage_order (initState "adm" "pau" "upg" "mnt")
      [] "mnt" "sp" "u1" "u2" 10 0 []).2.1 rfl (by decide)).1⟩

end Stablecoin